import Mathlib

/-!
Verification development for the meridian-intelligence passage corpus:
a shallow embedding of `src/api/ingest.py` and `src/api/retriever.py`.

Conventions of the embedding:
* Python floats are idealised as real numbers (`ℝ`); quantities the code
  computes exactly (token counts, weights, the rational part of the BM25
  formula) are kept in `ℚ`/`ℕ` so they stay computable.
* `math.log` is `Real.log`.
* Python strings are Lean `String`s; the character-level scanners below are
  written over `List Char`.  Fuel arguments (always instantiated with the
  input length, which bounds every scan) make the scanners structurally
  recursive; they never run out on actual inputs.
* Python `dict`s coming out of `json.loads` are modelled by the `JVal`
  inductive below; module-level mutable state (`_store`, `_all_passages`)
  is modelled by the explicit `Store` value threaded through the API.
-/

namespace Meridian

open scoped List

/-! ### Tokeniser (`retriever._tokenize`) -/

/-- The `_STOP_WORDS` frozenset from `retriever.py`. -/
def stopWords : List String :=
  ["a", "an", "the", "is", "are", "was", "were", "be", "been", "being",
   "have", "has", "had", "do", "does", "did", "will", "would", "could",
   "should", "may", "might", "shall", "can", "need", "dare", "ought",
   "to", "of", "in", "for", "on", "with", "at", "by", "from", "as",
   "into", "through", "during", "before", "after", "above", "below",
   "between", "out", "off", "over", "under", "again", "further", "then",
   "once", "and", "but", "or", "nor", "not", "so", "yet", "both",
   "each", "all", "any", "few", "more", "most", "other", "some", "such",
   "no", "only", "same", "than", "too", "very", "just", "because",
   "if", "when", "while", "this", "that", "these", "those", "it", "its",
   "what", "which", "who", "whom", "how", "where", "why", "i", "me",
   "my", "we", "our", "you", "your", "he", "him", "his", "she", "her",
   "they", "them", "their"]

/-- Character class `[a-z0-9]` of the token regex. -/
def isTokChar (c : Char) : Bool :=
  (decide ('a' ≤ c) && decide (c ≤ 'z')) || (decide ('0' ≤ c) && decide (c ≤ '9'))

/-- Maximal `[a-z0-9]` run at the head of the list, with the remainder. -/
def takeTokRun (l : List Char) : List Char × List Char :=
  (l.takeWhile isTokChar, l.dropWhile isTokChar)

/-- The `(?:\.[a-z0-9]+)*` part of the token regex: greedily consume
dot-joined runs (a dot only if followed by at least one `[a-z0-9]`). -/
def takeDotted (fuel : Nat) (l : List Char) : List Char × List Char :=
  match fuel with
  | 0 => ([], l)
  | fuel + 1 =>
    match l with
    | '.' :: c :: rest =>
      if isTokChar c then
        let rn := takeTokRun (c :: rest)
        let more := takeDotted fuel rn.2
        ('.' :: (rn.1 ++ more.1), more.2)
      else ([], l)
    | _ => ([], l)

/-- All matches of `[a-z0-9]+(?:\.[a-z0-9]+)*` in order (`re.findall`). -/
def tokenRuns (fuel : Nat) (l : List Char) : List (List Char) :=
  match fuel with
  | 0 => []
  | fuel + 1 =>
    match l with
    | [] => []
    | c :: rest =>
      if isTokChar c then
        let rn := takeTokRun (c :: rest)
        let dotted := takeDotted rn.2.length rn.2
        (rn.1 ++ dotted.1) :: tokenRuns fuel dotted.2
      else tokenRuns fuel rest

/-- Python `str.lower` (ASCII-faithful, which covers all corpus inputs). -/
def pyLower (s : String) : String :=
  String.mk (s.data.map Char.toLower)

/-- Python `str.upper` (ASCII-faithful, which covers all corpus inputs). -/
def pyUpper (s : String) : String :=
  String.mk (s.data.map Char.toUpper)

/-- The `_tokenize` function: lowercase, find token runs, drop stop words
and tokens of length ≤ 1. -/
def tokenize (text : String) : List String :=
  ((tokenRuns (pyLower text).data.length (pyLower text).data).map String.mk).filter
    (fun t => !(stopWords.contains t) && decide (1 < t.length))

/-! ### Passage data model (`ingest.Passage`) -/

/-- The `Passage` class of `ingest.py`.  `section` is a Lean keyword, so the
field is called `sectionName`; `weight` (a Python float whose values are all
exact decimals) is kept as `ℚ` so the structure stays decidable. -/
structure Passage where
  ticker : String
  sectionName : String
  subsection : String
  content : String
  tags : List String
  weight : ℚ
deriving DecidableEq, Inhabited

/-- Placeholder passage used only for out-of-range `getD` lookups (which
never occur on the source's control paths). -/
def padPassage : Passage :=
  { ticker := "", sectionName := "", subsection := "", content := "", tags := [], weight := 1 }

/-- The module-level store of `ingest.py`: the `_store` dict (association
list in insertion order) together with `_all_passages`. -/
structure Store where
  store : List (String × List Passage)
  allPassages : List Passage
deriving DecidableEq

/-- The `get_passages` function: a falsy ticker (absent or `""`) yields the
flattened corpus, otherwise look up the uppercased ticker, defaulting to
the empty list. -/
def getPassages (st : Store) (ticker : Option String) : List Passage :=
  match ticker with
  | none => st.allPassages
  | some t => if t = "" then st.allPassages else (st.store.lookup (pyUpper t)).getD []

/-! ### BM25 (`retriever.BM25`) -/

/-- BM25 `k1` parameter (constructor default, used by `retrieve`). -/
def k1 : ℚ := 3/2

/-- BM25 `b` parameter (constructor default, used by `retrieve`). -/
def b : ℚ := 3/4

/-- Tokenised contents of the candidate passages (`self.doc_tokens`). -/
def docTokens (ps : List Passage) : List (List String) :=
  ps.map (fun p => tokenize p.content)

/-- Document lengths (`self.doc_lens`). -/
def docLens (ps : List Passage) : List Nat :=
  (docTokens ps).map List.length

/-- Average document length `sum(doc_lens) / max(corpus_size, 1)`. -/
def avgDl (ps : List Passage) : ℚ :=
  ((docLens ps).sum : ℚ) / ((max ps.length 1 : Nat) : ℚ)

/-- Document frequency of a term: the number of candidate documents that
contain it (`self.df`). -/
def dfCount (ps : List Passage) (term : String) : Nat :=
  (docTokens ps).countP (fun toks => toks.contains term)

/-- The `_idf` method: Okapi smoothing `ln((N - n + 0.5)/(n + 0.5) + 1)`. -/
noncomputable def idf (ps : List Passage) (term : String) : ℝ :=
  Real.log ((((ps.length : ℚ) - (dfCount ps term : ℚ) + 1/2) / ((dfCount ps term : ℚ) + 1/2) + 1 : ℚ) : ℝ)

/-- Per-document body of the `score` loop: sum over the query tokens of
`idf * tf*(k1+1) / (tf + k1*(1 - b + b*dl/avg_dl))`, multiplied by the
passage weight. -/
noncomputable def scoreDoc (ps : List Passage) (queryTokens : List String) (i : Nat) : ℝ :=
  let toks := (docTokens ps).getD i []
  let dl : ℚ := toks.length
  ((queryTokens.map (fun term =>
      let tf : ℚ := toks.count term
      idf ps term * ((tf * (k1 + 1) / (tf + k1 * (1 - b + b * dl / avgDl ps)) : ℚ) : ℝ))).sum)
    * (((ps.getD i padPassage).weight : ℚ) : ℝ)

/-- The `results` list built by `score` before sorting: each candidate in
original order, paired with its score. -/
noncomputable def bm25ScoredRaw (ps : List Passage) (query : String) : List (ℝ × Passage) :=
  ps.enum.map (fun ip => (scoreDoc ps (tokenize query) ip.1, ip.2))

/-- Comparator of `results.sort(key=lambda x: -x[0])`: descending by score
(`mergeSort` with this comparator is the stable sort Python performs). -/
noncomputable def leScore (x y : ℝ × Passage) : Bool :=
  decide (y.1 ≤ x.1)

/-- The `score` method: an empty-token query returns every candidate with
score 0.0 in original order (no sort); otherwise the scored list is
stably sorted by descending score. -/
noncomputable def bm25Score (ps : List Passage) (query : String) : List (ℝ × Passage) :=
  if tokenize query = [] then ps.map (fun p => ((0 : ℝ), p))
  else (bm25ScoredRaw ps query).mergeSort leScore

/-! ### Query heuristics (`retriever._SECTION_HINTS`, boosts) -/

/-- The `_SECTION_HINTS` dict, in declaration order. -/
def sectionHints : List (String × List String) :=
  [("bull", ["hypothesis", "verdict", "narrative"]),
   ("bear", ["hypothesis", "verdict", "narrative"]),
   ("upside", ["hypothesis", "verdict", "narrative"]),
   ("downside", ["hypothesis", "verdict", "narrative"]),
   ("thesis", ["hypothesis", "verdict", "narrative"]),
   ("hypothesis", ["hypothesis"]),
   ("risk", ["tripwire", "discriminator", "hypothesis", "evidence"]),
   ("catalyst", ["tripwire", "discriminator"]),
   ("tripwire", ["tripwire"]),
   ("evidence", ["evidence"]),
   ("regulatory", ["evidence"]),
   ("competitor", ["evidence"]),
   ("valuation", ["identity", "reference", "narrative"]),
   ("price", ["technical", "identity", "reference"]),
   ("technical", ["technical"]),
   ("chart", ["technical"]),
   ("metric", ["identity", "reference", "overview"]),
   ("financial", ["identity", "reference"]),
   ("dividend", ["identity", "reference"]),
   ("margin", ["evidence", "hypothesis", "identity"]),
   ("gap", ["gaps"]),
   ("unknown", ["gaps"]),
   ("narrative", ["narrative"]),
   ("overview", ["overview"]),
   ("summary", ["verdict", "overview", "narrative"]),
   ("fresh", ["freshness"])]

/-- Does `pat` occur at the head of `s`? -/
def headMatches : List Char → List Char → Bool
  | [], _ => true
  | _ :: _, [] => false
  | p :: ps, c :: cs => p = c && headMatches ps cs

/-- Python `keyword in text` substring containment. -/
def hasSub (fuel : Nat) (s pat : List Char) : Bool :=
  match fuel with
  | 0 => headMatches pat s
  | fuel + 1 =>
    if headMatches pat s then true
    else
      match s with
      | [] => false
      | _ :: rest => hasSub fuel rest pat

/-- The `_detect_section_boost` function.  The source accumulates target
sections in a Python `set` and returns `list(boosted)`; only membership in
(and emptiness of) the result is ever used, so the set is modelled as a
deduplicated list in first-hit order. -/
def detectSectionBoost (query : String) : List String :=
  let ql := (pyLower query).data
  sectionHints.foldl
    (fun acc kw =>
      if hasSub ql.length ql kw.1.data then
        acc ++ kw.2.filter (fun s => !(acc.contains s))
      else acc)
    []

/-- Python whitespace class (`\s` over ASCII, and the default `str.strip`
set): space, tab, newline, carriage return, vertical tab, form feed. -/
def pySpace (c : Char) : Bool :=
  c = ' ' || c = '\t' || c = '\n' || c = '\r' || c = '\x0b' || c = '\x0c'

/-- Python `str.strip()` (whitespace at both ends). -/
def pyStrip (s : String) : List Char :=
  ((s.data.dropWhile pySpace).reverse.dropWhile pySpace).reverse

/-- The lowercased, stripped alignment token used by `_filter_by_alignment`. -/
def alignLower (alignment : String) : String :=
  String.mk (pyStrip (pyLower alignment))

/-- The `direction_map` dict of `_filter_by_alignment`. -/
def directionMap : List (String × String) :=
  [("bullish", "upside"), ("bull", "upside"), ("bearish", "downside"), ("bear", "downside")]

/-- The `_filter_by_alignment` pass: tier tags multiply matching passage
weights by 1.5, resolved directions by 1.3, anything else passes through.
Adjusted passages are fresh copies (`Passage(...)` constructor calls). -/
def filterByAlignment (passages : List Passage) (alignment : Option String) : List Passage :=
  match alignment with
  | none => passages
  | some al =>
    if al = "" then passages
    else
      let alLower := alignLower al
      if ["t1", "t2", "t3", "t4"].contains alLower then
        passages.map (fun p =>
          if p.tags.contains alLower then { p with weight := p.weight * (3/2) } else p)
      else
        let direction := ((directionMap.lookup alLower).getD alLower)
        if ["upside", "downside", "neutral"].contains direction then
          passages.map (fun p =>
            if p.tags.contains direction then { p with weight := p.weight * (13/10) } else p)
        else passages

/-- The section-boost pass inside `retrieve`: if any section keywords
matched, passages in a matched section get `weight * 1.4` fresh copies. -/
def applySectionBoost (query : String) (passages : List Passage) : List Passage :=
  let boostedSections := detectSectionBoost query
  if boostedSections = [] then passages
  else passages.map (fun p =>
    if boostedSections.contains p.sectionName then { p with weight := p.weight * (7/5) } else p)

/-- Python `round(x, 3)` of the relevance score, idealised over `ℝ`
(`round` here is round-half-up rather than the float's round-half-even; the
verified claims are insensitive to the tie-breaking rule). -/
noncomputable def round3 (x : ℝ) : ℝ :=
  ((round (1000 * x) : ℤ) : ℝ) / 1000

/-- The public `retrieve` function: candidates for the ticker, alignment
boost, section boost, BM25 scoring, top `maxPassages` with rounded scores.
The Python result dicts carry exactly the passage fields plus the score, so
an entry is modelled as `Passage × ℝ`. -/
noncomputable def retrieve (st : Store) (query : String) (ticker : Option String)
    (thesisAlignment : Option String) (maxPassages : Nat) : List (Passage × ℝ) :=
  let passages := getPassages st ticker
  if passages = [] then []
  else
    let aligned := filterByAlignment passages thesisAlignment
    let boosted := applySectionBoost query aligned
    let scored := bm25Score boosted query
    (scored.take maxPassages).map (fun sp => (sp.2, round3 sp.1))

/-- State-transformer view of `retrieve`: the source reads the module-level
store and never assigns to it, so the resulting store is the input store. -/
noncomputable def retrieveSt (st : Store) (query : String) (ticker : Option String)
    (thesisAlignment : Option String) (maxPassages : Nat) : List (Passage × ℝ) × Store :=
  (retrieve st query ticker thesisAlignment maxPassages, st)

/-! ### Object extractor (`ingest._extract_balanced_braces`) -/

/-- The scanning loop of `_extract_balanced_braces`, one constructor case
per loop iteration: `depth` is the nesting counter, `inStr`/`qc` track the
active string literal, a backslash inside a string consumes the following
character, and the block is returned (accumulated in reverse in `acc`) when
the depth returns to zero.  `none` models falling off the end (the source
returns `""`). -/
def extractLoop : List Char → Int → Bool → Char → List Char → Option (List Char)
  | [], _, _, _, _ => none
  | c :: rest, depth, inStr, qc, acc =>
    if inStr then
      if c = '\x5c' then
        match rest with
        | c2 :: rest2 => extractLoop rest2 depth inStr qc (c2 :: c :: acc)
        | [] => extractLoop [] depth inStr qc (c :: acc)
      else if c = qc then extractLoop rest depth false qc (c :: acc)
      else extractLoop rest depth true qc (c :: acc)
    else
      if c = '\x27' || c = '\x22' then extractLoop rest depth true c (c :: acc)
      else if c = '\x7b' then extractLoop rest (depth + 1) false qc (c :: acc)
      else if c = '\x7d' then
        if depth - 1 = 0 then some ((c :: acc).reverse)
        else extractLoop rest (depth - 1) false qc (c :: acc)
      else extractLoop rest depth false qc (c :: acc)

/-- The `_extract_balanced_braces` function: empty result unless `start`
points at an opening brace and the scan closes the block. -/
def extractBalancedBraces (text : List Char) (start : Nat) : List Char :=
  match text.drop start with
  | [] => []
  | c :: rest =>
    if c = '\x7b' then (extractLoop (c :: rest) 0 false ' ' []).getD []
    else []

/-- String-literal tracking state of the extractor's scan, replayed one
character at a time (`esc` marks the character consumed by a backslash). -/
structure ScanState where
  inStr : Bool
  qc : Char
  esc : Bool
deriving DecidableEq

/-- One character of the extractor's string-tracking automaton. -/
def scanStep (st : ScanState) (c : Char) : ScanState :=
  if st.esc then { st with esc := false }
  else if st.inStr then
    if c = '\x5c' then { st with esc := true }
    else if c = st.qc then { st with inStr := false }
    else st
  else if c = '\x27' || c = '\x22' then { inStr := true, qc := c, esc := false }
  else st

/-- Occurrences of `target` that the extractor treats as structural: those
read outside any string literal.  (Inside string literals brace characters
are ignored, and escapes are consumed, exactly as in the scan loop.) -/
def structuralCount (target : Char) : ScanState → List Char → Nat
  | _, [] => 0
  | st, c :: rest =>
    (if !st.esc && !st.inStr && c = target then 1 else 0) + structuralCount target (scanStep st c) rest

/-- Count of unescaped (structural) occurrences of `target` in a block,
starting outside any string literal. -/
def unescapedCount (target : Char) (l : List Char) : Nat :=
  structuralCount target { inStr := false, qc := ' ', esc := false } l

/-! ### Literal normalizer (`ingest._js_to_dict` and helpers) -/

/-- `re.sub(r"//[^\n]*", "", s)`: drop line comments (not string-aware,
mirroring the source's known limitation). -/
def stripLineComments (fuel : Nat) (l : List Char) : List Char :=
  match fuel with
  | 0 => l
  | fuel + 1 =>
    match l with
    | [] => []
    | '/' :: '/' :: rest => stripLineComments fuel (rest.dropWhile (fun c => c ≠ '\n'))
    | c :: rest => c :: stripLineComments fuel rest

/-- Remainder after the first `*/`, if any. -/
def afterBlockClose (fuel : Nat) (l : List Char) : Option (List Char) :=
  match fuel with
  | 0 => none
  | fuel + 1 =>
    match l with
    | '*' :: '/' :: rest => some rest
    | [] => none
    | _ :: rest => afterBlockClose fuel rest

/-- `re.sub(r"/\*.*?\*/", "", s, flags=re.DOTALL)`: drop block comments up
to the first closing `*/`; an unclosed `/*` does not match and is kept. -/
def stripBlockComments (fuel : Nat) (l : List Char) : List Char :=
  match fuel with
  | 0 => l
  | fuel + 1 =>
    match l with
    | [] => []
    | '/' :: '*' :: rest =>
      match afterBlockClose rest.length rest with
      | some rest2 => stripBlockComments fuel rest2
      | none => '/' :: '*' :: rest
    | c :: rest => c :: stripBlockComments fuel rest

/-- Character class `[a-zA-Z_]` (identifier start of the key regex). -/
def isIdentStart (c : Char) : Bool :=
  (decide ('a' ≤ c) && decide (c ≤ 'z')) || (decide ('A' ≤ c) && decide (c ≤ 'Z')) || c = '_'

/-- Character class `\w` = `[a-zA-Z0-9_]`. -/
def isWordChar (c : Char) : Bool :=
  isIdentStart c || (decide ('0' ≤ c) && decide (c ≤ '9'))

/-- Attempt to match `\s*([a-zA-Z_]\w*)\s*:` at the head of `l`
(the character classes are disjoint, so the greedy match is deterministic);
returns the identifier and the remainder after the colon. -/
def tryKey (l : List Char) : Option (List Char × List Char) :=
  let r1 := l.dropWhile pySpace
  match r1 with
  | c :: _ =>
    if isIdentStart c then
      let ident := r1.takeWhile isWordChar
      let r2 := (r1.dropWhile isWordChar).dropWhile pySpace
      match r2 with
      | ':' :: rest => some (ident, rest)
      | _ => none
    else none
  | [] => none

/-- `re.sub(r"(?<=[{,\n])\s*([a-zA-Z_]\w*)\s*:", r' "\1":', s)`: quote bare
keys after `{`, `,` or a newline; `prev` is the preceding character of the
original string (the lookbehind). -/
def quoteKeysGo (fuel : Nat) (prev : Char) (l : List Char) : List Char :=
  match fuel with
  | 0 => l
  | fuel + 1 =>
    match l with
    | [] => []
    | c :: rest =>
      if prev = '\x7b' || prev = ',' || prev = '\n' then
        match tryKey (c :: rest) with
        | some idrest =>
          ' ' :: '\x22' :: (idrest.1 ++ '\x22' :: ':' :: quoteKeysGo fuel ':' idrest.2)
        | none => c :: quoteKeysGo fuel c rest
      else c :: quoteKeysGo fuel c rest

/-- Key-quoting pass; the initial `prev` is any character outside
`[{,\n]`, since position 0 has no lookbehind. -/
def quoteKeys (l : List Char) : List Char :=
  quoteKeysGo l.length 'A' l

/-- Scanner mode of `_single_to_double_quotes`: outside any string, inside
a double-quoted string (copied verbatim), inside a single-quoted string
(being converted). -/
inductive QMode where
  | outside
  | inD
  | inS
deriving DecidableEq

/-- Re-escaping of `\c` sequences inside a single-quoted string. -/
def escMap (c : Char) : List Char :=
  if c = '\x27' then ['\x27']
  else if c = '\x22' then ['\x5c', '\x22']
  else if c = '\x5c' then ['\x5c', '\x5c']
  else if c = 'n' then ['\x5c', 'n']
  else if c = 't' then ['\x5c', 't']
  else if c = 'r' then ['\x5c', 'r']
  else ['\x5c', c]

/-- The `_single_to_double_quotes` character loop.  Note the source's exact
end-of-input behaviour: an unterminated single-quoted string still receives
its closing double quote, and a trailing lone backslash inside it is
dropped. -/
def singleToDoubleGo (fuel : Nat) (mode : QMode) (l : List Char) : List Char :=
  match fuel with
  | 0 => l
  | fuel + 1 =>
    match mode, l with
    | .outside, [] => []
    | .outside, c :: rest =>
      if c = '\x22' then '\x22' :: singleToDoubleGo fuel .inD rest
      else if c = '\x27' then '\x22' :: singleToDoubleGo fuel .inS rest
      else c :: singleToDoubleGo fuel .outside rest
    | .inD, [] => []
    | .inD, c :: rest =>
      if c = '\x5c' then
        match rest with
        | c2 :: rest2 => '\x5c' :: c2 :: singleToDoubleGo fuel .inD rest2
        | [] => ['\x5c']
      else if c = '\x22' then '\x22' :: singleToDoubleGo fuel .outside rest
      else c :: singleToDoubleGo fuel .inD rest
    | .inS, [] => ['\x22']
    | .inS, c :: rest =>
      if c = '\x5c' then
        match rest with
        | c2 :: rest2 => escMap c2 ++ singleToDoubleGo fuel .inS rest2
        | [] => ['\x22']
      else if c = '\x27' then '\x22' :: singleToDoubleGo fuel .outside rest
      else if c = '\x22' then '\x5c' :: '\x22' :: singleToDoubleGo fuel .inS rest
      else c :: singleToDoubleGo fuel .inS rest

/-- The `_single_to_double_quotes` function. -/
def singleToDouble (l : List Char) : List Char :=
  singleToDoubleGo l.length .outside l

/-- `re.sub(r",\s*([}\]])", r"\1", s)`: drop a comma (and the whitespace
after it) immediately preceding a closing brace or bracket. -/
def removeTrailingCommas (fuel : Nat) (l : List Char) : List Char :=
  match fuel with
  | 0 => l
  | fuel + 1 =>
    match l with
    | [] => []
    | ',' :: rest =>
      match rest.dropWhile pySpace with
      | c :: rest2 =>
        if c = '\x7d' || c = ']' then c :: removeTrailingCommas fuel rest2
        else ',' :: removeTrailingCommas fuel rest
      | [] => ',' :: removeTrailingCommas fuel rest
    | c :: rest => c :: removeTrailingCommas fuel rest

/-- Python `str.replace(pat, rep)`: all non-overlapping occurrences, left
to right. -/
def replaceAll (fuel : Nat) (pat rep l : List Char) : List Char :=
  match fuel with
  | 0 => l
  | fuel + 1 =>
    match l with
    | [] => []
    | c :: rest =>
      if !(pat = []) && headMatches pat (c :: rest) then
        rep ++ replaceAll fuel pat rep ((c :: rest).drop pat.length)
      else c :: replaceAll fuel pat rep rest


/-! ### JSON values and `json.loads` -/

/-- Structured values produced by `json.loads` (Python dicts are
association lists in insertion order; numbers are exact rationals, the
idealisation of Python's int/float). -/
inductive JVal where
  | null
  | bool (bv : Bool)
  | num (q : ℚ)
  | str (s : String)
  | arr (elts : List JVal)
  | obj (fields : List (String × JVal))
deriving Inhabited

/-- Python dict assignment `d[k] = v`: replace in place if the key exists
(keeping its position), else append. -/
def pyDictInsert {α : Type} (d : List (String × α)) (k : String) (v : α) : List (String × α) :=
  if d.any (fun kv => kv.1 = k) then d.map (fun kv => if kv.1 = k then (k, v) else kv)
  else d ++ [(k, v)]

/-- Python dict lookup on an association list (duplicate keys cannot occur
in lists built by `pyDictInsert`, but last-write-wins regardless). -/
def lookupLast {α : Type} (k : String) (fields : List (String × α)) : Option α :=
  fields.foldl (fun acc kv => if kv.1 = k then some kv.2 else acc) none

/-- Python truthiness of a JSON-derived value. -/
def JVal.truthy : JVal → Bool
  | .null => false
  | .bool bv => bv
  | .num q => !(q = 0)
  | .str s => !(s = "")
  | .arr elts => !elts.isEmpty
  | .obj fields => !fields.isEmpty

/-- Python `d.get(k)` on a dict value (`none` when absent or not a dict). -/
def JVal.get : JVal → String → Option JVal
  | .obj fields, k => lookupLast k fields
  | _, _ => none

/-- Python `d.get(k, default)`. -/
def JVal.getD (v : JVal) (k : String) (d : JVal) : JVal :=
  (v.get k).getD d

/-- Truthiness of a possibly-absent value (Python's `if d.get(k):`). -/
def optTruthy (o : Option JVal) : Bool :=
  match o with
  | none => false
  | some v => v.truthy

/-- Python `x or []` (first operand if truthy, else the empty list). -/
def pyOrList (o : Option JVal) : JVal :=
  match o with
  | none => JVal.arr []
  | some v => if v.truthy then v else JVal.arr []

/-- List view used for Python `for` loops over data values (the corpus
shapes only ever iterate actual lists). -/
def JVal.asList : JVal → List JVal
  | .arr elts => elts
  | _ => []

/-- Python `str(v)` as used in f-string interpolation.  Strings, `None` and
booleans are exact; integral numbers print as integers (non-integral float
formatting is approximated and is never exercised by a verified claim);
container interpolation never occurs on the corpus shapes. -/
def JVal.toStr : JVal → String
  | .str s => s
  | .null => "None"
  | .bool true => "True"
  | .bool false => "False"
  | .num q => if q.den = 1 then toString q.num else toString q
  | .arr _ => ""
  | .obj _ => ""

/-- JSON whitespace. -/
def jsonWs (c : Char) : Bool :=
  c = ' ' || c = '\t' || c = '\n' || c = '\r'

/-- Skip JSON whitespace. -/
def skipWs (l : List Char) : List Char :=
  l.dropWhile jsonWs

/-- ASCII digit. -/
def isDigit (c : Char) : Bool :=
  decide ('0' ≤ c) && decide (c ≤ '9')

/-- Decimal digits to a natural number. -/
def digitsToNat (ds : List Char) : Nat :=
  ds.foldl (fun n c => n * 10 + (c.toNat - 48)) 0

/-- Value of a hex digit. -/
def hexVal (c : Char) : Option Nat :=
  if isDigit c then some (c.toNat - 48)
  else if decide ('a' ≤ c) && decide (c ≤ 'f') then some (c.toNat - 87)
  else if decide ('A' ≤ c) && decide (c ≤ 'F') then some (c.toNat - 55)
  else none

/-- Strict JSON string body (after the opening quote): standard escapes,
`\uXXXX` as a single code point (surrogate pairing is not modelled and
never occurs in the corpus), unescaped control characters rejected. -/
def parseJsonString (fuel : Nat) (l : List Char) (acc : List Char) : Option (String × List Char) :=
  match fuel with
  | 0 => none
  | fuel + 1 =>
    match l with
    | [] => none
    | c :: rest =>
      if c = '\x22' then some (String.mk acc.reverse, rest)
      else if c = '\x5c' then
        match rest with
        | [] => none
        | e :: rest2 =>
          if e = '\x22' then parseJsonString fuel rest2 ('\x22' :: acc)
          else if e = '\x5c' then parseJsonString fuel rest2 ('\x5c' :: acc)
          else if e = '/' then parseJsonString fuel rest2 ('/' :: acc)
          else if e = 'b' then parseJsonString fuel rest2 ('\x08' :: acc)
          else if e = 'f' then parseJsonString fuel rest2 ('\x0c' :: acc)
          else if e = 'n' then parseJsonString fuel rest2 ('\n' :: acc)
          else if e = 'r' then parseJsonString fuel rest2 ('\r' :: acc)
          else if e = 't' then parseJsonString fuel rest2 ('\t' :: acc)
          else if e = 'u' then
            match rest2 with
            | h1 :: h2 :: h3 :: h4 :: rest3 =>
              match hexVal h1, hexVal h2, hexVal h3, hexVal h4 with
              | some v1, some v2, some v3, some v4 =>
                parseJsonString fuel rest3 (Char.ofNat (((v1 * 16 + v2) * 16 + v3) * 16 + v4) :: acc)
              | _, _, _, _ => none
            | _ => none
          else none
      else if c.toNat < 32 then none
      else parseJsonString fuel rest (c :: acc)

/-- Strict JSON number: `-? int frac? exp?` with no leading zeros. -/
def parseJsonNumber (l : List Char) : Option (ℚ × List Char) :=
  let signed : ℚ × List Char := match l with
    | '-' :: r => (-1, r)
    | _ => (1, l)
  let l1 := signed.2
  let intDs := l1.takeWhile isDigit
  let l2 := l1.dropWhile isDigit
  if intDs = [] then none
  else if 1 < intDs.length && intDs.head? = some '0' then none
  else
    let fracPart : Option (List Char × List Char) :=
      match l2 with
      | '.' :: r =>
        let ds := r.takeWhile isDigit
        if ds = [] then none else some (ds, r.dropWhile isDigit)
      | _ => some ([], l2)
    match fracPart with
    | none => none
    | some fr =>
      let expPart : Option (ℤ × List Char) :=
        match fr.2 with
        | c :: r =>
          if c = 'e' || c = 'E' then
            let se : ℤ × List Char := match r with
              | '+' :: r2 => (1, r2)
              | '-' :: r2 => (-1, r2)
              | _ => (1, r)
            let eds := se.2.takeWhile isDigit
            if eds = [] then none
            else some (se.1 * (digitsToNat eds : ℤ), se.2.dropWhile isDigit)
          else some (0, fr.2)
        | [] => some (0, fr.2)
      match expPart with
      | none => none
      | some ex =>
        some (signed.1 * (digitsToNat (intDs ++ fr.1) : ℚ) / (10 : ℚ) ^ fr.1.length * (10 : ℚ) ^ ex.1, ex.2)

mutual

/-- Strict JSON value at the head of `l` (already whitespace-skipped);
returns the value and the remainder.  The fuel (instantiated with a bound
exceeding the input length) dominates the nesting depth. -/
def parseJsonValue (fuel : Nat) (l : List Char) : Option (JVal × List Char) :=
  match fuel with
  | 0 => none
  | fuel + 1 =>
    match l with
    | [] => none
    | c :: rest =>
      if c = '\x7b' then
        match skipWs rest with
        | '\x7d' :: r => some (JVal.obj [], r)
        | l2 => parseJsonMembers fuel l2 []
      else if c = '[' then
        match skipWs rest with
        | ']' :: r => some (JVal.arr [], r)
        | l2 => parseJsonElements fuel l2 []
      else if c = '\x22' then
        (parseJsonString rest.length rest []).map (fun sr => (JVal.str sr.1, sr.2))
      else if headMatches "true".data (c :: rest) then some (JVal.bool true, (c :: rest).drop 4)
      else if headMatches "false".data (c :: rest) then some (JVal.bool false, (c :: rest).drop 5)
      else if headMatches "null".data (c :: rest) then some (JVal.null, (c :: rest).drop 4)
      else (parseJsonNumber (c :: rest)).map (fun qr => (JVal.num qr.1, qr.2))

/-- Object members: `"key" : value` pairs separated by commas, ending at
`}`; keys accumulate with dict-assignment semantics. -/
def parseJsonMembers (fuel : Nat) (l : List Char) (acc : List (String × JVal)) : Option (JVal × List Char) :=
  match fuel with
  | 0 => none
  | fuel + 1 =>
    match l with
    | '\x22' :: rest =>
      match parseJsonString rest.length rest [] with
      | none => none
      | some kr =>
        match skipWs kr.2 with
        | ':' :: r2 =>
          match parseJsonValue fuel (skipWs r2) with
          | none => none
          | some vr =>
            match skipWs vr.2 with
            | '\x7d' :: r4 => some (JVal.obj (pyDictInsert acc kr.1 vr.1), r4)
            | ',' :: r4 => parseJsonMembers fuel (skipWs r4) (pyDictInsert acc kr.1 vr.1)
            | _ => none
        | _ => none
    | _ => none

/-- Array elements separated by commas, ending at `]`. -/
def parseJsonElements (fuel : Nat) (l : List Char) (acc : List JVal) : Option (JVal × List Char) :=
  match fuel with
  | 0 => none
  | fuel + 1 =>
    match parseJsonValue fuel l with
    | none => none
    | some vr =>
      match skipWs vr.2 with
      | ']' :: r2 => some (JVal.arr (acc ++ [vr.1]), r2)
      | ',' :: r2 => parseJsonElements fuel (skipWs r2) (acc ++ [vr.1])
      | _ => none

end

/-- `json.loads`: a single strict JSON value surrounded by whitespace. -/
def jsonLoads (s : List Char) : Option JVal :=
  match parseJsonValue (s.length + 1) (skipWs s) with
  | none => none
  | some vr => if skipWs vr.2 = [] then some vr.1 else none

/-- The `_js_to_dict` function: the normalization passes in source order
(comments, key quoting, quote conversion, trailing commas, the literal
`": undefined"` replacement), then strict JSON parsing; `none` is the
failure sentinel. -/
def jsToDict (jsStr : List Char) : Option JVal :=
  let s1 := stripLineComments jsStr.length jsStr
  let s2 := stripBlockComments s1.length s1
  let s3 := quoteKeys s2
  let s4 := singleToDouble s3
  let s5 := removeTrailingCommas s4.length s4
  let s6 := replaceAll s5.length ": undefined".data ": null".data s5
  jsonLoads s6

/-! ### HTML cleanup (`ingest._clean_html`) -/

/-- The `_HTML_ENTITIES` replacement table, in declaration order. -/
def htmlEntities : List (String × String) :=
  [("&amp;", "&"), ("&lt;", "<"), ("&gt;", ">"), ("&bull;", " - "), ("&ndash;", "-"),
   ("&mdash;", " — "), ("&rarr;", "->"), ("&larr;", "<-"), ("&uarr;", "^"), ("&darr;", "v"),
   ("&ge;", ">="), ("&le;", "<="), ("&#9650;", "^"), ("&#9660;", "v")]

/-- `re.sub(r"<[^>]+>", "", text)`: drop tag-like spans (a `<`, at least
one non-`>` character, then `>`). -/
def stripTags (fuel : Nat) (l : List Char) : List Char :=
  match fuel with
  | 0 => l
  | fuel + 1 =>
    match l with
    | [] => []
    | '<' :: rest =>
      match rest with
      | [] => ['<']
      | c :: _ =>
        if c = '>' then '<' :: stripTags fuel rest
        else
          match rest.dropWhile (fun d => d ≠ '>') with
          | '>' :: l3 => stripTags fuel l3
          | _ => '<' :: stripTags fuel rest
    | c :: rest => c :: stripTags fuel rest

/-- `re.sub(r"\s+", " ", text)`: collapse whitespace runs to one space. -/
def collapseWs (fuel : Nat) (l : List Char) : List Char :=
  match fuel with
  | 0 => l
  | fuel + 1 =>
    match l with
    | [] => []
    | c :: rest =>
      if pySpace c then ' ' :: collapseWs fuel (rest.dropWhile pySpace)
      else c :: collapseWs fuel rest

/-- Python `str.strip()` on a character list. -/
def pyStripSpace (l : List Char) : List Char :=
  ((l.dropWhile pySpace).reverse.dropWhile pySpace).reverse

/-- The `_clean_html` function: falsy input yields `""`; otherwise decode
the entity table (in order), strip tags, normalise whitespace, strip. -/
def cleanHtml (v : JVal) : String :=
  if !v.truthy then ""
  else
    let t0 := htmlEntities.foldl (fun s e => replaceAll s.length e.1.data e.2.data s) v.toStr.data
    let t1 := stripTags t0.length t0
    let t2 := collapseWs t1.length t1
    String.mk (pyStripSpace t2)

/-! ### Discovery scans (`_extract_js_objects` and named-constant scans) -/

/-- Uppercase ASCII letter (`[A-Z]`). -/
def isUpperChar (c : Char) : Bool :=
  decide ('A' ≤ c) && decide (c ≤ 'Z')

/-- Match `r"STOCK_DATA\.([A-Z]{2,5})\s*=\s*\{"` at the head of `l`: the
uppercase run after the dot must have length 2–5 (a longer run leaves an
uppercase letter that no alternative of the greedy group can absorb, so it
never matches).  Returns the ticker and the total match length. -/
def matchStockAt (l : List Char) : Option (String × Nat) :=
  if headMatches "STOCK_DATA.".data l then
    let l1 := l.drop 11
    let run := l1.takeWhile isUpperChar
    if 2 ≤ run.length && run.length ≤ 5 then
      let l2 := l1.dropWhile isUpperChar
      let ws1 := l2.takeWhile pySpace
      match l2.dropWhile pySpace with
      | '=' :: l4 =>
        let ws2 := l4.takeWhile pySpace
        match l4.dropWhile pySpace with
        | '\x7b' :: _ => some (String.mk run, 11 + run.length + ws1.length + 1 + ws2.length + 1)
        | _ => none
      | _ => none
    else none
  else none

/-- `pattern.finditer`: all non-overlapping matches in order, paired with
the absolute position of the matched `{` (the source's `match.end() - 1`). -/
def scanStockMatches (fuel : Nat) (l : List Char) (pos : Nat) : List (String × Nat) :=
  match fuel with
  | 0 => []
  | fuel + 1 =>
    match l with
    | [] => []
    | _ :: rest =>
      match matchStockAt l with
      | some tklen => (tklen.1, pos + tklen.2 - 1) :: scanStockMatches fuel (l.drop tklen.2) (pos + tklen.2)
      | none => scanStockMatches fuel rest (pos + 1)

/-- The `_extract_js_objects` function: for each discovered ticker, extract
the balanced block and normalize it; blocks that fail to balance, fail to
parse, or parse to a falsy value are skipped. -/
def extractJsObjects (html : List Char) : List (String × JVal) :=
  (scanStockMatches html.length html 0).foldl
    (fun stocks m =>
      let jsObj := extractBalancedBraces html m.2
      if jsObj.isEmpty then stocks
      else
        match jsToDict jsObj with
        | some v => if v.truthy then pyDictInsert stocks m.1 v else stocks
        | none => stocks)
    []

/-- Match `r"const\s+NAME\s*=\s*\{"` at the head of `l`; returns the match
length. -/
def matchConstAt (name : List Char) (l : List Char) : Option Nat :=
  if headMatches "const".data l then
    let l1 := l.drop 5
    let ws0 := l1.takeWhile pySpace
    if ws0.isEmpty then none
    else
      let l2 := l1.dropWhile pySpace
      if headMatches name l2 then
        let l3 := l2.drop name.length
        let ws1 := l3.takeWhile pySpace
        match l3.dropWhile pySpace with
        | '=' :: l5 =>
          let ws2 := l5.takeWhile pySpace
          match l5.dropWhile pySpace with
          | '\x7b' :: _ => some (5 + ws0.length + name.length + ws1.length + 1 + ws2.length + 1)
          | _ => none
        | _ => none
      else none
  else none

/-- `pattern.search`: position of the `{` of the first match, if any. -/
def findConst (name : List Char) (fuel : Nat) (l : List Char) (pos : Nat) : Option Nat :=
  match fuel with
  | 0 => none
  | fuel + 1 =>
    match l with
    | [] => none
    | _ :: rest =>
      match matchConstAt name l with
      | some len => some (pos + len - 1)
      | none => findConst name fuel rest (pos + 1)

/-- The `_extract_reference_data` / `_extract_freshness_data` pattern:
first `const NAME = {...}` block, normalized, with `{}` (an empty object)
when the block is absent, unbalanced, unparseable or falsy. -/
def extractNamedConst (name : String) (html : List Char) : JVal :=
  match findConst name.data html.length html 0 with
  | none => JVal.obj []
  | some bpos =>
    let jsObj := extractBalancedBraces html bpos
    match jsToDict jsObj with
    | some v => if v.truthy then v else JVal.obj []
    | none => JVal.obj []

/-! ### Passage chunker (`ingest._chunk_stock`) -/

/-- Python `is not None` on a dict lookup: the key is present and its value
is not JSON `null` (JSON `null` loads as Python `None`). -/
def presentNotNone (o : Option JVal) : Bool :=
  match o with
  | none => false
  | some JVal.null => false
  | some _ => true

/-- The `field_labels` dict of the reference-data group, in order. -/
def fieldLabels : List (String × String) :=
  [("sharesOutstanding", "Shares outstanding (M)"), ("analystTarget", "Analyst target price"),
   ("epsTrailing", "Trailing EPS"), ("epsForward", "Forward EPS"),
   ("divPerShare", "Dividend per share"), ("revenue", "Revenue ($B)"),
   ("revenueGrowth", "Revenue growth (%)"), ("ebitMargin", "EBIT margin (%)"),
   ("ebitdaMargin", "EBITDA margin (%)"), ("roe", "Return on equity (%)"),
   ("netDebtToEbitda", "Net debt/EBITDA"), ("fcf", "Free cash flow ($B)"),
   ("fcfMargin", "FCF margin (%)")]

/-- The `_chunk_stock` function, group by group in emission order.  Each
group mirrors the source's guard (`if <truthy>:`) and its f-string
rendering; `ref`/`fresh` are the per-ticker auxiliary records. -/
def chunkStock (ticker : String) (data : JVal) (ref : Option JVal) (fresh : Option JVal) : List Passage :=
  let overviewParts : List String :=
    (if optTruthy (data.get "company")
     then [(data.getD "company" (JVal.str "")).toStr ++ " (ASX: " ++ ticker ++ ")"] else []) ++
    (if optTruthy (data.get "sector")
     then ["Sector: " ++ (data.getD "sector" (JVal.str "")).toStr] else []) ++
    (if optTruthy (data.get "heroDescription")
     then [cleanHtml (data.getD "heroDescription" JVal.null)] else []) ++
    (if optTruthy (data.get "heroCompanyDescription")
     then [cleanHtml (data.getD "heroCompanyDescription" JVal.null)] else []) ++
    (if optTruthy ((data.getD "identity" (JVal.obj [])).get "overview")
     then [cleanHtml ((data.getD "identity" (JVal.obj [])).getD "overview" JVal.null)] else [])
  let overviewPassages : List Passage :=
    if !overviewParts.isEmpty then
      [{ ticker := ticker, sectionName := "overview", subsection := "company_description",
         content := String.intercalate "\n" overviewParts,
         tags := ["overview", "fundamentals"], weight := 1 }]
    else []
  let metrics := (pyOrList (data.get "heroMetrics")).asList
  let metricsPassages : List Passage :=
    if !metrics.isEmpty then
      let metricStr := String.intercalate ", " (metrics.map (fun m =>
        (m.getD "label" (JVal.str "")).toStr ++ ": " ++ cleanHtml (m.getD "value" (JVal.str ""))))
      [{ ticker := ticker, sectionName := "overview", subsection := "key_metrics",
         content := "Key metrics for " ++ ticker ++ ": " ++ metricStr,
         tags := ["metrics", "fundamentals"], weight := 4/5 }]
    else []
  let identity := data.getD "identity" (JVal.obj [])
  let idRows := (identity.getD "rows" (JVal.arr [])).asList
  let idPassages : List Passage :=
    if !idRows.isEmpty then
      let idLines := (idRows.map (fun row =>
        (row.asList.filter (fun cell => decide (2 ≤ cell.asList.length))).map (fun cell =>
          (cell.asList.getD 0 JVal.null).toStr ++ ": " ++ cleanHtml (cell.asList.getD 1 JVal.null)))).flatten
      [{ ticker := ticker, sectionName := "identity", subsection := "financial_data",
         content := "Financial identity for " ++ ticker ++ ":\n" ++ String.intercalate "\n" idLines,
         tags := ["identity", "financials", "fundamentals"], weight := 9/10 }]
    else []
  let skew := data.getD "skew" (JVal.obj [])
  let skewPassages : List Passage :=
    if skew.truthy then
      [{ ticker := ticker, sectionName := "verdict", subsection := "skew",
         content := "Risk skew for " ++ ticker ++ ": " ++ (skew.getD "direction" (JVal.str "unknown")).toStr
           ++ ". " ++ cleanHtml (skew.getD "rationale" (JVal.str "")),
         tags := ["skew", "risk", "verdict"], weight := 1 }]
    else []
  let verdict := data.getD "verdict" (JVal.obj [])
  let verdictPassages : List Passage :=
    if verdict.truthy then
      let verdictParts := ("Verdict for " ++ ticker ++ ": " ++ cleanHtml (verdict.getD "text" (JVal.str ""))) ::
        (verdict.getD "scores" (JVal.arr [])).asList.map (fun score =>
          "  " ++ (score.getD "label" (JVal.str "")).toStr ++ ": " ++ (score.getD "score" (JVal.str "")).toStr
            ++ " (" ++ cleanHtml (score.getD "dirText" (JVal.str "")) ++ ")")
      [{ ticker := ticker, sectionName := "verdict", subsection := "summary",
         content := String.intercalate "\n" verdictParts,
         tags := ["verdict", "thesis", "summary"], weight := 6/5 }]
    else []
  let hypPassages : List Passage :=
    (data.getD "hypotheses" (JVal.arr [])).asList.map (fun hyp =>
      let parts :=
        ["Hypothesis: " ++ cleanHtml (hyp.getD "title" (JVal.str "")),
         "Direction: " ++ (hyp.getD "direction" (JVal.str "")).toStr,
         "Probability: " ++ (hyp.getD "score" (JVal.str "")).toStr,
         "Status: " ++ cleanHtml (hyp.getD "statusText" (JVal.str "")),
         "Description: " ++ cleanHtml (hyp.getD "description" (JVal.str ""))]
      let requires := (pyOrList (hyp.get "requires")).asList
      let parts := parts ++ (if !requires.isEmpty
        then ["Requires: " ++ String.intercalate "; " (requires.map cleanHtml)] else [])
      let supporting := (pyOrList (hyp.get "supporting")).asList
      let parts := parts ++ (if !supporting.isEmpty
        then ["Supporting evidence: " ++ String.intercalate " | " (supporting.map cleanHtml)] else [])
      let contradicting := (pyOrList (hyp.get "contradicting")).asList
      let parts := parts ++ (if !contradicting.isEmpty
        then ["Contradicting evidence: " ++ String.intercalate " | " (contradicting.map cleanHtml)] else [])
      let tier := (hyp.getD "tier" (JVal.str "")).toStr
      { ticker := ticker, sectionName := "hypothesis", subsection := tier,
        content := String.intercalate "\n" parts,
        tags := ["hypothesis", tier, (hyp.getD "direction" (JVal.str "")).toStr], weight := 13/10 })
  let narrative := data.getD "narrative" (JVal.obj [])
  let narrativePassages : List Passage :=
    if narrative.truthy then
      (if optTruthy (narrative.get "theNarrative") then
        [{ ticker := ticker, sectionName := "narrative", subsection := "the_narrative",
           content := "Market narrative for " ++ ticker ++ ": " ++ cleanHtml (narrative.getD "theNarrative" JVal.null),
           tags := ["narrative", "thesis"], weight := 11/10 }] else []) ++
      (let pi := narrative.getD "priceImplication" (JVal.obj [])
       if pi.truthy && optTruthy (pi.get "content") then
        [{ ticker := ticker, sectionName := "narrative", subsection := "price_implication",
           content := "Price implications for " ++ ticker ++ " (" ++ cleanHtml (pi.getD "label" (JVal.str ""))
             ++ "): " ++ cleanHtml (pi.getD "content" JVal.null),
           tags := ["narrative", "price", "valuation"], weight := 1 }] else []) ++
      (if optTruthy (narrative.get "evidenceCheck") then
        [{ ticker := ticker, sectionName := "narrative", subsection := "evidence_check",
           content := "Evidence check for " ++ ticker ++ ": " ++ cleanHtml (narrative.getD "evidenceCheck" JVal.null),
           tags := ["narrative", "evidence"], weight := 1 }] else []) ++
      (if optTruthy (narrative.get "narrativeStability") then
        [{ ticker := ticker, sectionName := "narrative", subsection := "stability",
           content := "Narrative stability for " ++ ticker ++ ": " ++ cleanHtml (narrative.getD "narrativeStability" JVal.null),
           tags := ["narrative", "stability", "risk"], weight := 1 }] else [])
    else []
  let evidence := data.getD "evidence" (JVal.obj [])
  let evidencePassages : List Passage :=
    ((evidence.getD "cards" (JVal.arr [])).asList.map (fun card =>
      let parts :=
        ["Evidence: " ++ cleanHtml (card.getD "title" (JVal.str "")),
         "Epistemic status: " ++ cleanHtml (card.getD "epistemicLabel" (JVal.str "")),
         "Finding: " ++ cleanHtml (card.getD "finding" (JVal.str ""))]
      let parts := parts ++ (if optTruthy (card.get "tension")
        then ["Tension: " ++ cleanHtml (card.getD "tension" JVal.null)] else [])
      let parts := parts ++ (if optTruthy (card.get "source")
        then ["Source: " ++ cleanHtml (card.getD "source" JVal.null)] else [])
      let tagTexts := (card.getD "tags" (JVal.arr [])).asList.map (fun t =>
        cleanHtml (t.getD "text" (JVal.str "")))
      let main : Passage :=
        { ticker := ticker, sectionName := "evidence",
          subsection := "card_" ++ (card.getD "number" (JVal.str "")).toStr,
          content := String.intercalate "\n" parts,
          tags := "evidence" :: tagTexts, weight := 11/10 }
      let tablePassages : List Passage :=
        if optTruthy (card.get "table") then
          let tbl := card.getD "table" JVal.null
          let headers := (tbl.getD "headers" (JVal.arr [])).asList
          let rows := (tbl.getD "rows" (JVal.arr [])).asList
          let tableLines := String.intercalate " | " (headers.map JVal.toStr) ::
            rows.map (fun row => String.intercalate " | " (row.asList.map cleanHtml))
          [{ ticker := ticker, sectionName := "evidence",
             subsection := "card_" ++ (card.getD "number" (JVal.str "")).toStr ++ "_table",
             content := "Data table for " ++ cleanHtml (card.getD "title" (JVal.str "")) ++ ":\n"
               ++ String.intercalate "\n" tableLines,
             tags := ["evidence", "data"], weight := 4/5 }]
        else []
      main :: tablePassages)).flatten
  let alignment := evidence.getD "alignmentSummary" (JVal.obj [])
  let alignmentPassages : List Passage :=
    if alignment.truthy && optTruthy (alignment.get "summary") then
      let s := alignment.getD "summary" (JVal.obj [])
      [{ ticker := ticker, sectionName := "evidence", subsection := "alignment_summary",
         content := "Evidence alignment summary for " ++ ticker ++ ": T1 support: "
           ++ (s.getD "t1" (JVal.str "-")).toStr ++ ", T2 support: " ++ (s.getD "t2" (JVal.str "-")).toStr
           ++ ", T3 support: " ++ (s.getD "t3" (JVal.str "-")).toStr ++ ", T4 support: "
           ++ (s.getD "t4" (JVal.str "-")).toStr,
         tags := ["evidence", "summary", "alignment"], weight := 1 }]
    else []
  let disc := data.getD "discriminators" (JVal.obj [])
  let discPassages : List Passage :=
    if disc.truthy then
      ((disc.getD "rows" (JVal.arr [])).asList.enum.map (fun irow =>
        ({ ticker := ticker, sectionName := "discriminator", subsection := "disc_" ++ toString (irow.1 + 1),
           content := "Discriminator (" ++ (irow.2.getD "diagnosticity" (JVal.str "")).toStr ++ ") for "
             ++ ticker ++ ": " ++ cleanHtml (irow.2.getD "evidence" (JVal.str "")) ++ " — Discriminates between: "
             ++ cleanHtml (irow.2.getD "discriminatesBetween" (JVal.str "")) ++ " — Current reading: "
             ++ cleanHtml (irow.2.getD "currentReading" (JVal.str "")),
           tags := ["discriminator", pyLower (irow.2.getD "diagnosticity" (JVal.str "")).toStr],
           weight := 6/5 } : Passage))) ++
      (if optTruthy (disc.get "nonDiscriminating") then
        [{ ticker := ticker, sectionName := "discriminator", subsection := "non_discriminating",
           content := "Non-discriminating evidence for " ++ ticker ++ ": "
             ++ cleanHtml (disc.getD "nonDiscriminating" JVal.null),
           tags := ["discriminator", "noise"], weight := 3/5 }] else [])
    else []
  let tripwires := data.getD "tripwires" (JVal.obj [])
  let tripwirePassages : List Passage :=
    (tripwires.getD "cards" (JVal.arr [])).asList.map (fun tw =>
      let condParts := (tw.getD "conditions" (JVal.arr [])).asList.map (fun cond =>
        cleanHtml (cond.getD "if" (JVal.str "")) ++ " → " ++ cleanHtml (cond.getD "then" (JVal.str "")))
      { ticker := ticker, sectionName := "tripwire", subsection := cleanHtml (tw.getD "name" (JVal.str "")),
        content := "Tripwire for " ++ ticker ++ ": " ++ cleanHtml (tw.getD "name" (JVal.str ""))
          ++ " (Date: " ++ cleanHtml (tw.getD "date" (JVal.str "")) ++ ")\n"
          ++ String.intercalate "\n" condParts,
        tags := ["tripwire", "catalyst", "risk"], weight := 6/5 })
  let gaps := data.getD "gaps" (JVal.obj [])
  let couldnt := (gaps.getD "couldntAssess" (JVal.arr [])).asList
  let gapsPassages : List Passage :=
    if !couldnt.isEmpty then
      [{ ticker := ticker, sectionName := "gaps", subsection := "unknowns",
         content := "Research gaps for " ++ ticker ++ " (what we couldn\x27t assess):\n"
           ++ String.intercalate "\n" (couldnt.map (fun g => "- " ++ cleanHtml g)),
         tags := ["gaps", "limitations"], weight := 9/10 }]
    else []
  let ta := data.getD "technicalAnalysis" (JVal.obj [])
  let taPassages : List Passage :=
    if ta.truthy then
      let taParts := ["Technical analysis for " ++ ticker ++ " (" ++ (ta.getD "date" (JVal.str "")).toStr ++ "):"]
      let taParts := taParts ++ ["Regime: " ++ (ta.getD "regime" (JVal.str "")).toStr
        ++ ", Clarity: " ++ (ta.getD "clarity" (JVal.str "")).toStr]
      let price := ta.getD "price" (JVal.obj [])
      let taParts := taParts ++ (if price.truthy then
        ["Price: " ++ (price.getD "currency" (JVal.str "")).toStr ++ (price.getD "current" (JVal.str "")).toStr]
        else [])
      let ma := ta.getD "movingAverages" (JVal.obj [])
      let taParts := taParts ++ (if ma.truthy then
          (let ma50 := ma.getD "ma50" (JVal.obj [])
           if ma50.truthy then ["50-day MA: " ++ (ma50.getD "value" (JVal.str "")).toStr] else []) ++
          (let ma200 := ma.getD "ma200" (JVal.obj [])
           if ma200.truthy then ["200-day MA: " ++ (ma200.getD "value" (JVal.str "")).toStr] else []) ++
          (let crossover := ma.getD "crossover" (JVal.obj [])
           if crossover.truthy then
             ["Crossover: " ++ (crossover.getD "type" (JVal.str "")).toStr ++ " ("
               ++ (crossover.getD "date" (JVal.str "")).toStr ++ ")"] else [])
        else [])
      let vol := ta.getD "volatility" (JVal.obj [])
      let taParts := taParts ++ (if vol.truthy then
        ["Annualised volatility: " ++ (vol.getD "annualised" (JVal.str "")).toStr ++ "%"] else [])
      [{ ticker := ticker, sectionName := "technical", subsection := "analysis",
         content := String.intercalate "\n" taParts,
         tags := ["technical", "price", "chart"], weight := 4/5 }]
    else []
  let refPassages : List Passage :=
    match ref with
    | some refv =>
      if refv.truthy then
        let refParts := ["Reference data for " ++ ticker ++ ":"] ++
          (fieldLabels.filterMap (fun kl =>
            if presentNotNone (refv.get kl.1) then
              some ("  " ++ kl.2 ++ ": " ++ (refv.getD kl.1 JVal.null).toStr)
            else none)) ++
          (if presentNotNone (refv.get "analystBuys") then
            ["  Analyst consensus: " ++ (refv.getD "analystBuys" (JVal.num 0)).toStr ++ " Buy, "
              ++ (refv.getD "analystHolds" (JVal.num 0)).toStr ++ " Hold, "
              ++ (refv.getD "analystSells" (JVal.num 0)).toStr ++ " Sell"] else [])
        [{ ticker := ticker, sectionName := "reference", subsection := "fundamentals",
           content := String.intercalate "\n" refParts,
           tags := ["reference", "fundamentals", "financials"], weight := 7/10 }]
      else []
    | none => []
  let freshPassages : List Passage :=
    match fresh with
    | some freshv =>
      if freshv.truthy then
        [{ ticker := ticker, sectionName := "freshness", subsection := "status",
           content := "Research freshness for " ++ ticker ++ ": Last reviewed "
             ++ (freshv.getD "reviewDate" (JVal.str "unknown")).toStr ++ " ("
             ++ (freshv.getD "daysSinceReview" (JVal.str "?")).toStr ++ " days ago). Price at review: "
             ++ (freshv.getD "priceAtReview" (JVal.str "?")).toStr ++ ", change since: "
             ++ (freshv.getD "pricePctChange" (JVal.str "?")).toStr ++ "%. Nearest catalyst: "
             ++ (freshv.getD "nearestCatalyst" (JVal.str "none")).toStr ++ " ("
             ++ (freshv.getD "nearestCatalystDays" (JVal.str "?")).toStr ++ " days). Status: "
             ++ (freshv.getD "status" (JVal.str "unknown")).toStr ++ ".",
           tags := ["freshness", "status"], weight := 1/2 }]
      else []
    | none => []
  overviewPassages ++ metricsPassages ++ idPassages ++ skewPassages ++ verdictPassages
    ++ hypPassages ++ narrativePassages ++ evidencePassages ++ alignmentPassages ++ discPassages
    ++ tripwirePassages ++ gapsPassages ++ taPassages ++ refPassages ++ freshPassages

/-! ### Ingestion (`ingest.ingest`) -/

/-- The `ingest` function on the document text (the one-time file read is
the caller's I/O): discover and normalize all ticker objects and the two
auxiliary blocks, chunk each ticker, and build the store. -/
def ingest (html : String) : Store :=
  let stocks := extractJsObjects html.data
  let refData := extractNamedConst "REFERENCE_DATA" html.data
  let freshData := extractNamedConst "FRESHNESS_DATA" html.data
  let entries := stocks.map (fun td =>
    (td.1, chunkStock td.1 td.2 (refData.get td.1) (freshData.get td.1)))
  { store := entries, allPassages := (entries.map (fun td => td.2)).flatten }

/-- `get_tickers`: sorted ticker identifiers. -/
def getTickers (st : Store) : List String :=
  (st.store.map (fun td => td.1)).mergeSort (fun a c => a ≤ c)

/-- `get_passage_count`: passage counts by ticker, sorted by ticker. -/
def getPassageCount (st : Store) : List (String × Nat) :=
  (st.store.mergeSort (fun a c => a.1 ≤ c.1)).map (fun td => (td.1, td.2.length))

/-! ### Concrete fixtures used by counterexamples and witnesses -/

/-- A passage with a single-token content and weight 1/2. -/
def pLow : Passage :=
  { ticker := "AA", sectionName := "narrative", subsection := "", content := "alpha",
    tags := [], weight := 1/2 }

/-- A passage with a single-token content and weight 1. -/
def pHigh : Passage :=
  { ticker := "AA", sectionName := "narrative", subsection := "", content := "beta",
    tags := [], weight := 1 }

/-- A two-passage store: `pLow` (weight 1/2) stored before `pHigh` (weight 1). -/
def twoStore : Store :=
  { store := [("AA", [pLow, pHigh])], allPassages := [pLow, pHigh] }

/-- Candidate document containing one `zebra` token. -/
def zebraDoc : Passage :=
  { ticker := "ZZ", sectionName := "overview", subsection := "", content := "zebra",
    tags := [], weight := 1 }

/-- The same document after one more occurrence of the term `cow`. -/
def zebraCowDoc : Passage :=
  { ticker := "ZZ", sectionName := "overview", subsection := "", content := "zebra cow",
    tags := [], weight := 1 }

/-- The zebra document after one more occurrence of its own term. -/
def zebraZebraDoc : Passage :=
  { ticker := "ZZ", sectionName := "overview", subsection := "", content := "zebra zebra",
    tags := [], weight := 1 }

/-- A second candidate document. -/
def cowDoc : Passage :=
  { ticker := "ZZ", sectionName := "overview", subsection := "", content := "cow",
    tags := [], weight := 1 }

/-- Tier-tagged passage in the `overview` section (receives both boosts for
alignment `t1` and a query containing `overview`). -/
def pBoosted : Passage :=
  { ticker := "AA", sectionName := "overview", subsection := "", content := "alpha",
    tags := ["t1"], weight := 1 }

/-- Untagged passage in the `technical` section (receives neither boost). -/
def pPlain : Passage :=
  { ticker := "AA", sectionName := "technical", subsection := "", content := "beta",
    tags := [], weight := 1 }

/-- Field-preserving weight-only relation between a boosted copy and its
source passage: every field except possibly `weight` agrees, and the
weight is the original or the original times one of the listed boost
factors (copy-on-boost). -/
abbrev CopyBoost (facs : List ℚ) (q p : Passage) : Prop :=
  q.ticker = p.ticker ∧ q.sectionName = p.sectionName ∧ q.subsection = p.subsection ∧
  q.content = p.content ∧ q.tags = p.tags ∧
  (q.weight = p.weight ∨ ∃ f ∈ facs, q.weight = p.weight * f)

/-! ### Helper lemmas -/

theorem filterByAlignment_nil (a : Option String) : filterByAlignment [] a = [] := by
  cases a with
  | none => rfl
  | some al =>
    simp only [filterByAlignment]
    split_ifs <;> rfl

theorem applySectionBoost_nil (q : String) : applySectionBoost q [] = [] := by
  simp only [applySectionBoost]
  split_ifs <;> rfl

theorem round3_zero : round3 0 = 0 := by
  unfold round3
  norm_num

theorem round3_mono {x y : ℝ} (h : x ≤ y) : round3 x ≤ round3 y := by
  unfold round3
  have h1 : round (1000 * x) ≤ round (1000 * y) := by
    rw [round_eq, round_eq]
    exact Int.floor_mono (by linarith)
  have h2 : ((round (1000 * x) : ℤ) : ℝ) ≤ ((round (1000 * y) : ℤ) : ℝ) := by
    exact_mod_cast h1
  linarith

/-- On an empty-token query, `retrieve` returns the boosted candidates in
original order, each with score 0, truncated to `maxPassages`. -/
theorem retrieve_empty_tokens (st : Store) (q : String) (t : Option String)
    (a : Option String) (m : Nat) (h : tokenize q = []) :
    retrieve st q t a m =
      ((applySectionBoost q (filterByAlignment (getPassages st t) a)).take m).map
        (fun p => (p, (0 : ℝ))) := by
  by_cases hp : getPassages st t = []
  · unfold retrieve
    rw [if_pos hp, hp, filterByAlignment_nil, applySectionBoost_nil]
    simp
  · unfold retrieve bm25Score
    rw [h]
    simp only [if_neg hp, eq_self_iff_true, ite_true]
    rw [← List.map_take, List.map_map]
    refine List.map_congr_left ?_
    intro p _
    simp [Function.comp_def, round3_zero]

/-! ### Claims -/

/-- Claim C2: a source document containing exactly one ticker object
`SYMBOL = {company:'Acme Corp', sector:'Industrials'}` (instantiated at the
ticker `ACME`, per the `STOCK_DATA.SYMBOL =` convention of 2–5 uppercase
letters) ingests to exactly one passage for that ticker, with section
`overview`, subsection `company_description`, and content
`"Acme Corp (ASX: ACME)\nSector: Industrials"`. -/
theorem claim_C2_single_ticker_scenario :
    getPassages (ingest "STOCK_DATA.ACME = \x7bcompany:\x27Acme Corp\x27, sector:\x27Industrials\x27\x7d") (some "ACME") =
      [{ ticker := "ACME", sectionName := "overview", subsection := "company_description",
         content := "Acme Corp (ASX: ACME)\nSector: Industrials",
         tags := ["overview", "fundamentals"], weight := 1 }] := by
  rfl

/-- Claim C8 (counterexample): the normalizer does not map every
`undefined` value to `null` — with zero whitespace between the colon and
the token (`{a:undefined}`), the replacement (which matches only the
literal `": undefined"`) misses, and `_js_to_dict` returns the failure
sentinel instead of parsing successfully. -/
theorem claim_C8_counterexample :
    jsToDict "\x7ba:undefined\x7d".data = none := by
  rfl

/-- Claim C8 (amended): only occurrences of `undefined` preceded by a
colon and exactly one space are mapped to `null` (so `{a: undefined}`
normalizes and parses, while any other spacing — e.g. two spaces — fails
and returns the sentinel). -/
theorem claim_C8_amended_undefined :
    jsToDict "\x7ba: undefined\x7d".data = some (JVal.obj [("a", JVal.null)]) ∧
    jsToDict "\x7ba:  undefined\x7d".data = none := by
  exact ⟨rfl, rfl⟩

theorem toNat_ofNat_valid (n : Nat) (h : n < 55296) : (Char.ofNat n).toNat = n := by
  unfold Char.ofNat
  rw [dif_pos (Or.inl h)]
  unfold Char.ofNatAux Char.toNat
  simp [UInt32.ofNat', UInt32.toNat]

theorem toUpper_idem (c : Char) : c.toUpper.toUpper = c.toUpper := by
  unfold Char.toUpper
  by_cases h : 97 ≤ c.toNat ∧ c.toNat ≤ 122
  · rw [if_pos h, toNat_ofNat_valid (c.toNat - 32) (by omega), if_neg (by omega)]
  · rw [if_neg h, if_neg h]

theorem pyUpper_idem (t : String) : pyUpper (pyUpper t) = pyUpper t := by
  cases t with
  | mk l => simp [pyUpper, List.map_map, Function.comp_def, toUpper_idem]

theorem pyUpper_ne_empty {t : String} (h : t ≠ "") : pyUpper t ≠ "" := by
  intro hc
  apply h
  have hd := congrArg String.data hc
  simp only [pyUpper] at hd
  have hnil : t.data = [] := List.map_eq_nil_iff.mp hd
  cases t with
  | mk l =>
    cases hnil
    rfl

/-- Claim C9: ticker lookup is case-insensitive — `get_passages t` equals
`get_passages` of the uppercased ticker (the store keys are uppercase and
the lookup uppercases its argument, and `upper` is idempotent), and hence
`retrieve` at ticker `t` and at `upper t` agree (e.g. `"wow"` vs `"WOW"`). -/
theorem claim_C9_case_insensitive_lookup (st : Store) (t : String) (q : String)
    (a : Option String) (m : Nat) :
    getPassages st (some t) = getPassages st (some (pyUpper t)) ∧
    retrieve st q (some t) a m = retrieve st q (some (pyUpper t)) a m := by
  have hg : getPassages st (some t) = getPassages st (some (pyUpper t))  := by
    simp only [getPassages]
    by_cases h : t = ""
    · subst h
      rfl
    · rw [if_neg h, if_neg (pyUpper_ne_empty h), pyUpper_idem]
  refine ⟨hg, ?_⟩
  unfold retrieve
  rw [hg]

theorem getLast?_cons_ne {α : Type} (a : α) {l : List α} (h : l ≠ []) :
    (a :: l).getLast? = l.getLast? := by
  cases l with
  | nil => exact absurd rfl h
  | cons b bs => exact List.getLast?_cons_cons

theorem extractLoop_spec :
    ∀ (l : List Char) (depth : Int) (inStr : Bool) (qc : Char) (acc : List Char) (r : List Char),
      extractLoop l depth inStr qc acc = some r →
      ∃ pre rest, l = pre ++ rest ∧ r = acc.reverse ++ pre ∧
        pre.getLast? = some '\x7d' ∧
        (structuralCount '\x7b' ⟨inStr, qc, false⟩ pre : Int) -
          (structuralCount '\x7d' ⟨inStr, qc, false⟩ pre : Int) = -depth := by
  intro l depth inStr qc acc
  induction l, depth, inStr, qc, acc using extractLoop.induct with
  | case1 depth inStr qc acc =>
    intro r hr
    exact Option.noConfusion hr
  | case2 depth qc acc c2 rest2 ih =>
    intro r hr
    have hr' : extractLoop rest2 depth true qc (c2 :: '\x5c' :: acc) = some r := hr
    obtain ⟨pre, rest, h1, h2, h3, h4⟩ := ih r hr'
    have hne : pre ≠ [] := by
      intro hc
      rw [hc] at h3
      exact Option.noConfusion h3
    refine ⟨'\x5c' :: c2 :: pre, rest, by simp [h1], by simp [h2], ?_, ?_⟩
    · rw [getLast?_cons_ne _ (by simp), getLast?_cons_ne _ hne]
      exact h3
    · simp [structuralCount, scanStep]
      omega
  | case3 depth qc acc ih =>
    intro r hr
    have hr' : (none : Option (List Char)) = some r := hr
    exact Option.noConfusion hr'
  | case4 rest depth qc acc hq ih =>
    intro r hr
    unfold extractLoop at hr
    rw [if_pos rfl, if_neg hq, if_pos rfl] at hr
    obtain ⟨pre, rest2, h1, h2, h3, h4⟩ := ih r hr
    have hne : pre ≠ [] := by
      intro hc
      rw [hc] at h3
      exact Option.noConfusion h3
    refine ⟨qc :: pre, rest2, by simp [h1], by simp [h2], ?_, ?_⟩
    · rw [getLast?_cons_ne _ hne]
      exact h3
    · simp [structuralCount, scanStep, hq]
      omega
  | case5 c rest depth qc acc hc hq ih =>
    intro r hr
    unfold extractLoop at hr
    rw [if_pos rfl, if_neg hc, if_neg hq] at hr
    obtain ⟨pre, rest2, h1, h2, h3, h4⟩ := ih r hr
    have hne : pre ≠ [] := by
      intro hc2
      rw [hc2] at h3
      exact Option.noConfusion h3
    refine ⟨c :: pre, rest2, by simp [h1], by simp [h2], ?_, ?_⟩
    · rw [getLast?_cons_ne _ hne]
      exact h3
    · simp [structuralCount, scanStep, hc, hq]
      omega
  | case6 c rest depth inStr qc acc hstr hquote ih =>
    intro r hr
    have hstr' : inStr = false := by
      cases inStr
      · rfl
      · exact absurd rfl hstr
    subst hstr'
    unfold extractLoop at hr
    rw [if_neg (by simp : ¬(false = true)), if_pos hquote] at hr
    obtain ⟨pre, rest2, h1, h2, h3, h4⟩ := ih r hr
    have hne : pre ≠ [] := by
      intro hc2
      rw [hc2] at h3
      exact Option.noConfusion h3
    have hcb : c ≠ '\x7b' := by
      rcases Bool.or_eq_true_iff.mp hquote with h | h
      · rw [decide_eq_true_eq] at h
        subst h
        decide
      · rw [decide_eq_true_eq] at h
        subst h
        decide
    have hcb2 : c ≠ '\x7d' := by
      rcases Bool.or_eq_true_iff.mp hquote with h | h
      · rw [decide_eq_true_eq] at h
        subst h
        decide
      · rw [decide_eq_true_eq] at h
        subst h
        decide
    refine ⟨c :: pre, rest2, by simp [h1], by simp [h2], ?_, ?_⟩
    · rw [getLast?_cons_ne _ hne]
      exact h3
    · simp [structuralCount, scanStep, hquote, hcb, hcb2]
      omega
  | case7 rest depth inStr qc acc hstr hquote ih =>
    intro r hr
    have hstr' : inStr = false := by
      cases inStr
      · rfl
      · exact absurd rfl hstr
    subst hstr'
    unfold extractLoop at hr
    rw [if_neg (by simp : ¬(false = true)), if_neg hquote, if_pos rfl] at hr
    obtain ⟨pre, rest2, h1, h2, h3, h4⟩ := ih r hr
    have hne : pre ≠ [] := by
      intro hc2
      rw [hc2] at h3
      exact Option.noConfusion h3
    refine ⟨'\x7b' :: pre, rest2, by simp [h1], by simp [h2], ?_, ?_⟩
    · rw [getLast?_cons_ne _ hne]
      exact h3
    · simp [structuralCount, scanStep]
      omega
  | case8 rest depth inStr qc acc hstr hd hquote hbr =>
    intro r hr
    have hstr' : inStr = false := by
      cases inStr
      · rfl
      · exact absurd rfl hstr
    subst hstr'
    unfold extractLoop at hr
    rw [if_neg (by simp : ¬(false = true)), if_neg hquote, if_neg hbr,
      if_pos rfl, if_pos hd] at hr
    have hr' : r = acc.reverse ++ ['\x7d'] := by
      have h5 := Option.some.inj hr
      simp [← h5]
    refine ⟨['\x7d'], rest, by simp, hr', by simp, ?_⟩
    simp [structuralCount, scanStep]
    omega
  | case9 rest depth inStr qc acc hstr hd hquote hbr ih =>
    intro r hr
    have hstr' : inStr = false := by
      cases inStr
      · rfl
      · exact absurd rfl hstr
    subst hstr'
    unfold extractLoop at hr
    rw [if_neg (by simp : ¬(false = true)), if_neg hquote, if_neg hbr,
      if_pos rfl, if_neg hd] at hr
    obtain ⟨pre, rest2, h1, h2, h3, h4⟩ := ih r hr
    have hne : pre ≠ [] := by
      intro hc2
      rw [hc2] at h3
      exact Option.noConfusion h3
    refine ⟨'\x7d' :: pre, rest2, by simp [h1], by simp [h2], ?_, ?_⟩
    · rw [getLast?_cons_ne _ hne]
      exact h3
    · simp [structuralCount, scanStep]
      omega
  | case10 c rest depth inStr qc acc hstr hquote hob hcb ih =>
    intro r hr
    have hstr' : inStr = false := by
      cases inStr
      · rfl
      · exact absurd rfl hstr
    subst hstr'
    unfold extractLoop at hr
    rw [if_neg (by simp : ¬(false = true)), if_neg hquote, if_neg hob,
      if_neg hcb] at hr
    obtain ⟨pre, rest2, h1, h2, h3, h4⟩ := ih r hr
    have hne : pre ≠ [] := by
      intro hc2
      rw [hc2] at h3
      exact Option.noConfusion h3
    refine ⟨c :: pre, rest2, by simp [h1], by simp [h2], ?_, ?_⟩
    · rw [getLast?_cons_ne _ hne]
      exact h3
    · simp [structuralCount, scanStep, hquote, hob, hcb]
      omega

/-- Claim C6: any non-empty block returned by the Object Extractor has
equal counts of unescaped (structural, i.e. outside string literals —
braces inside strings are the ones the scan treats as escaped/ignored)
`{` and `}` characters, starts with `{`, and ends with `}`. -/
theorem claim_C6_balance_invariant (text : List Char) (start : Nat)
    (h : extractBalancedBraces text start ≠ []) :
    unescapedCount '\x7b' (extractBalancedBraces text start) =
      unescapedCount '\x7d' (extractBalancedBraces text start) ∧
    (extractBalancedBraces text start).head? = some '\x7b' ∧
    (extractBalancedBraces text start).getLast? = some '\x7d' := by
  unfold extractBalancedBraces at h ⊢
  cases hd : text.drop start with
  | nil =>
    rw [hd] at h
    exact (h rfl).elim
  | cons c rest =>
    rw [hd] at h
    by_cases hc : c = '\x7b'
    · have hEq : (match c :: rest with
          | [] => ([] : List Char)
          | c :: rest => if c = '\x7b' then (extractLoop (c :: rest) 0 false ' ' []).getD [] else []) =
          (extractLoop (c :: rest) 0 false ' ' []).getD [] := if_pos hc
      rw [hEq] at h ⊢
      cases he : extractLoop (c :: rest) 0 false ' ' [] with
      | none =>
        rw [he] at h
        exact absurd rfl h
      | some r =>
        rw [he] at h
        simp only [Option.getD_some] at h ⊢
        obtain ⟨pre, rest2, h1, h2, h3, h4⟩ := extractLoop_spec _ _ _ _ _ _ he
        simp only [List.reverse_nil, List.nil_append] at h2
        subst h2
        refine ⟨?_, ?_, h3⟩
        · unfold unescapedCount
          omega
        · cases r with
          | nil => exact absurd rfl h
          | cons a as =>
            rw [List.cons_append] at h1
            injection h1 with h1a h1b
            rw [← h1a, hc]
            rfl
    · have hEq : (match c :: rest with
          | [] => ([] : List Char)
          | c :: rest => if c = '\x7b' then (extractLoop (c :: rest) 0 false ' ' []).getD [] else []) =
          [] := if_neg hc
      rw [hEq] at h
      exact absurd rfl h

/-- Claim C6 witness: a concrete successful extraction. -/
theorem claim_C6_witness :
    extractBalancedBraces "\x7ba:\x271\x7d\x27\x7d".data 0 ≠ [] ∧
    (unescapedCount '\x7b' (extractBalancedBraces "\x7ba:\x271\x7d\x27\x7d".data 0) =
       unescapedCount '\x7d' (extractBalancedBraces "\x7ba:\x271\x7d\x27\x7d".data 0) ∧
     (extractBalancedBraces "\x7ba:\x271\x7d\x27\x7d".data 0).head? = some '\x7b' ∧
     (extractBalancedBraces "\x7ba:\x271\x7d\x27\x7d".data 0).getLast? = some '\x7d') :=
  ⟨by decide, claim_C6_balance_invariant "\x7ba:\x271\x7d\x27\x7d".data 0 (by decide)⟩

/-- Claim C5 (counterexample): on the empty query (which tokenizes to no
tokens), `retrieve` over a store holding a weight-1/2 passage before a
weight-1 passage returns them with zero scores in original order — the
first returned weight is smaller than the second, so the result is not in
weight-then-stable order as the claim states. -/
theorem claim_C5_counterexample :
    (retrieve twoStore "" (some "AA") none 2).map (fun r => r.1.weight) = [1/2, 1] ∧
    (retrieve twoStore "" (some "AA") none 2).map (fun r => r.2) = [0, 0] ∧
    (1/2 : ℚ) < 1 := by
  have he := retrieve_empty_tokens twoStore "" (some "AA") none 2 rfl
  rw [he]
  refine ⟨by rfl, by rfl, by norm_num⟩

/-- Claim C5 (amended): a query that tokenizes to no tokens yields score 0
for every candidate and returns up to `maxPassages` candidates in the
original candidate order (the boosted copies, in store order) — not in
weight-then-stable order. -/
theorem claim_C5_amended_empty_query (st : Store) (q : String) (t : Option String)
    (a : Option String) (m : Nat) (h : tokenize q = []) :
    retrieve st q t a m =
      ((applySectionBoost q (filterByAlignment (getPassages st t) a)).take m).map
        (fun p => (p, (0 : ℝ))) ∧
    (retrieve st q t a m).length ≤ m ∧
    ∀ r ∈ retrieve st q t a m, r.2 = 0 := by
  have he := retrieve_empty_tokens st q t a m h
  refine ⟨he, ?_, ?_⟩
  · rw [he]
    simp only [List.length_map]
    exact (List.length_take_le m _)
  · intro r hr
    rw [he] at hr
    obtain ⟨p, hp, hpr⟩ := List.mem_map.mp hr
    rw [← hpr]

/-- Claim C5 witness: the amended statement at a concrete store and the
empty query. -/
theorem claim_C5_witness :
    tokenize "" = [] ∧
    (retrieve twoStore "" (some "AA") none 2 =
       ((applySectionBoost "" (filterByAlignment (getPassages twoStore (some "AA")) none)).take 2).map
         (fun p => (p, (0 : ℝ))) ∧
     (retrieve twoStore "" (some "AA") none 2).length ≤ 2 ∧
     ∀ r ∈ retrieve twoStore "" (some "AA") none 2, r.2 = 0) :=
  ⟨rfl, claim_C5_amended_empty_query twoStore "" (some "AA") none 2 rfl⟩

theorem leScore_total (x y : ℝ × Passage) : leScore x y || leScore y x := by
  unfold leScore
  rcases le_total y.1 x.1 with h | h <;> simp [h]

theorem leScore_trans (x y z : ℝ × Passage) : leScore x y → leScore y z → leScore x z := by
  unfold leScore
  simp only [decide_eq_true_eq]
  intro h1 h2
  exact le_trans h2 h1

/-- The scored list produced by `BM25.score` is sorted by non-increasing
score (in the empty-token branch all scores are equal). -/
theorem bm25Score_sorted (ps : List Passage) (q : String) :
    (bm25Score ps q).Pairwise (fun x y => y.1 ≤ x.1) := by
  unfold bm25Score
  by_cases h : tokenize q = []
  · rw [if_pos h]
    rw [List.pairwise_map]
    exact List.pairwise_of_forall_mem_list (fun _ _ _ _ => le_refl 0)
  · rw [if_neg h]
    have hs := @List.sorted_mergeSort _ leScore leScore_trans leScore_total (bm25ScoredRaw ps q)
    exact hs.imp (fun {x y} hab => by simpa [leScore] using hab)

/-- Claim C1: for every store, query, ticker, alignment and positive
`maxPassages`, `retrieve` returns at most `maxPassages` entries, the
entries are sorted by non-increasing relevance score, and ties between
equal (raw) scores preserve the original candidate order: for each score
value, the entries holding it appear as a sublist of the boosted candidate
list, which is positionally aligned with the stored chunk-emission
order. -/
theorem claim_C1_result_bound_sorted_stable (st : Store) (q : String) (t : Option String)
    (a : Option String) (m : Nat) (hm : 0 < m) :
    (retrieve st q t a m).length ≤ m ∧
    (retrieve st q t a m).Pairwise (fun x y => y.2 ≤ x.2) ∧
    (∀ s : ℝ,
      (((bm25Score (applySectionBoost q (filterByAlignment (getPassages st t) a)) q).take m).filter
          (fun sp => sp.1 = s)).map Prod.snd <+
        applySectionBoost q (filterByAlignment (getPassages st t) a)) := by
  refine ⟨?_, ?_, ?_⟩
  · unfold retrieve
    by_cases hp : getPassages st t = []
    · rw [if_pos hp]
      simp
    · rw [if_neg hp]
      simp only [List.length_map]
      exact List.length_take_le m _
  · unfold retrieve
    by_cases hp : getPassages st t = []
    · rw [if_pos hp]
      exact List.Pairwise.nil
    · rw [if_neg hp]
      have hs := bm25Score_sorted (applySectionBoost q (filterByAlignment (getPassages st t) a)) q
      have hs2 := hs.sublist (List.take_sublist m _)
      rw [List.pairwise_map]
      exact hs2.imp (fun {x y} hab => round3_mono hab)
  · intro s
    set boosted := applySectionBoost q (filterByAlignment (getPassages st t) a) with hb
    by_cases h : tokenize q = []
    · unfold bm25Score
      rw [if_pos h]
      have h1 : (((boosted.map (fun p => ((0 : ℝ), p))).take m).filter
          (fun sp => sp.1 = s)).map Prod.snd <+ (boosted.map (fun p => ((0 : ℝ), p))).map Prod.snd :=
        ((List.filter_sublist _).trans (List.take_sublist m _)).map Prod.snd
      simpa [List.map_map, Function.comp_def] using h1
    · unfold bm25Score
      rw [if_neg h]
      have hpw : ((bm25ScoredRaw boosted q).filter (fun sp => sp.1 = s)).Pairwise
          (fun x y => leScore x y) := by
        apply List.pairwise_of_forall_mem_list
        intro x hx y hy
        have hx2 := (List.mem_filter.mp hx).2
        have hy2 := (List.mem_filter.mp hy).2
        simp only [decide_eq_true_eq] at hx2 hy2
        simp [leScore, hx2, hy2]
      have hsub : (bm25ScoredRaw boosted q).filter (fun sp => sp.1 = s) <+
          (bm25ScoredRaw boosted q).mergeSort leScore :=
        List.sublist_mergeSort leScore_trans leScore_total hpw (List.filter_sublist _)
      have hsub2 : (bm25ScoredRaw boosted q).filter (fun sp => sp.1 = s) <+
          ((bm25ScoredRaw boosted q).mergeSort leScore).filter (fun sp => sp.1 = s) := by
        have h2 := hsub.filter (fun sp => decide (sp.1 = s))
        rwa [List.filter_filter, show ((fun sp : ℝ × Passage => decide (sp.1 = s) &&
          decide (sp.1 = s))) = (fun sp : ℝ × Passage => decide (sp.1 = s)) from
            funext (fun sp => Bool.and_self _)] at h2
      have hperm : ((bm25ScoredRaw boosted q).mergeSort leScore).filter (fun sp => sp.1 = s) ~
          (bm25ScoredRaw boosted q).filter (fun sp => sp.1 = s) :=
        (List.mergeSort_perm (bm25ScoredRaw boosted q) leScore).filter _
      have heq : ((bm25ScoredRaw boosted q).mergeSort leScore).filter (fun sp => sp.1 = s) =
          (bm25ScoredRaw boosted q).filter (fun sp => sp.1 = s) :=
        (hsub2.eq_of_length hperm.length_eq.symm).symm
      have hstep1 : ((((bm25ScoredRaw boosted q).mergeSort leScore).take m).filter
          (fun sp => sp.1 = s)).map Prod.snd <+
          ((((bm25ScoredRaw boosted q).mergeSort leScore)).filter (fun sp => sp.1 = s)).map Prod.snd :=
        ((List.take_sublist m _).filter _).map Prod.snd
      rw [heq] at hstep1
      have hstep2 : ((bm25ScoredRaw boosted q).filter (fun sp => sp.1 = s)).map Prod.snd <+
          (bm25ScoredRaw boosted q).map Prod.snd :=
        (List.filter_sublist _).map Prod.snd
      have hfin : (bm25ScoredRaw boosted q).map Prod.snd = boosted := by
        unfold bm25ScoredRaw
        rw [List.map_map]
        exact List.enum_map_snd boosted
      rw [hfin] at hstep2
      exact hstep1.trans hstep2

/-- Claim C1 witness: the statement instantiated at a concrete store,
query and positive bound. -/
theorem claim_C1_witness :
    0 < 1 ∧
    ((retrieve twoStore "beta" (some "AA") none 1).length ≤ 1 ∧
     (retrieve twoStore "beta" (some "AA") none 1).Pairwise (fun x y => y.2 ≤ x.2) ∧
     (∀ s : ℝ,
       (((bm25Score (applySectionBoost "beta" (filterByAlignment (getPassages twoStore (some "AA")) none)) "beta").take 1).filter
           (fun sp => sp.1 = s)).map Prod.snd <+
         applySectionBoost "beta" (filterByAlignment (getPassages twoStore (some "AA")) none))) :=
  ⟨by decide, claim_C1_result_bound_sorted_stable twoStore "beta" (some "AA") none 1 (by decide)⟩

theorem copyBoost_self (facs : List ℚ) (p : Passage) : CopyBoost facs p p :=
  ⟨rfl, rfl, rfl, rfl, rfl, Or.inl rfl⟩

theorem forall2_mem_left {α β : Type} {r : α → β → Prop} {l₁ : List α} {l₂ : List β}
    (h : List.Forall₂ r l₁ l₂) {x : α} (hx : x ∈ l₁) : ∃ y ∈ l₂, r x y := by
  induction h with
  | nil => cases hx
  | cons hr _ ih =>
    rcases List.mem_cons.mp hx with rfl | hx2
    · exact ⟨_, List.mem_cons_self _ _, hr⟩
    · obtain ⟨y, hy, hxy⟩ := ih hx2
      exact ⟨y, List.mem_cons_of_mem _ hy, hxy⟩

/-- The alignment pass produces weight-only copies (factors 1.5 or 1.3),
pointwise along the candidate list. -/
theorem filterByAlignment_forall2 (ps : List Passage) (al : Option String) :
    List.Forall₂ (CopyBoost [3/2, 13/10]) (filterByAlignment ps al) ps := by
  have hself : ∀ l : List Passage, List.Forall₂ (CopyBoost [3/2, 13/10]) l l :=
    fun l => List.forall₂_same.mpr (fun p _ => copyBoost_self _ p)
  cases al with
  | none => exact hself ps
  | some s =>
    simp only [filterByAlignment]
    split_ifs with h1 h2 h3
    · exact hself ps
    · rw [List.forall₂_map_left_iff]
      refine List.forall₂_same.mpr (fun p _ => ?_)
      by_cases hm : p.tags.contains (alignLower s)
      · rw [if_pos hm]
        exact ⟨rfl, rfl, rfl, rfl, rfl, Or.inr ⟨3/2, by norm_num, rfl⟩⟩
      · rw [if_neg hm]
        exact copyBoost_self _ p
    · rw [List.forall₂_map_left_iff]
      refine List.forall₂_same.mpr (fun p _ => ?_)
      by_cases hm : p.tags.contains ((directionMap.lookup (alignLower s)).getD (alignLower s))
      · rw [if_pos hm]
        exact ⟨rfl, rfl, rfl, rfl, rfl, Or.inr ⟨13/10, by norm_num, rfl⟩⟩
      · rw [if_neg hm]
        exact copyBoost_self _ p
    · exact hself ps

/-- The section pass produces weight-only copies (factor 1.4), pointwise
along the candidate list. -/
theorem applySectionBoost_forall2 (q : String) (ps : List Passage) :
    List.Forall₂ (CopyBoost [7/5]) (applySectionBoost q ps) ps := by
  simp only [applySectionBoost]
  split_ifs with h1
  · exact List.forall₂_same.mpr (fun p _ => copyBoost_self _ p)
  · rw [List.forall₂_map_left_iff]
    refine List.forall₂_same.mpr (fun p _ => ?_)
    by_cases hm : (detectSectionBoost q).contains p.sectionName
    · rw [if_pos hm]
      exact ⟨rfl, rfl, rfl, rfl, rfl, Or.inr ⟨7/5, by norm_num, rfl⟩⟩
    · rw [if_neg hm]
      exact copyBoost_self _ p

theorem copyBoost_comp {x y z : Passage} (h1 : CopyBoost [7/5] x y)
    (h2 : CopyBoost [3/2, 13/10] y z) :
    CopyBoost [3/2, 13/10, 7/5, 3/2 * (7/5), 13/10 * (7/5)] x z := by
  obtain ⟨a1, a2, a3, a4, a5, aw⟩ := h1
  obtain ⟨b1, b2, b3, b4, b5, bw⟩ := h2
  refine ⟨a1.trans b1, a2.trans b2, a3.trans b3, a4.trans b4, a5.trans b5, ?_⟩
  rcases aw with aw | ⟨f, hf, aw⟩
  · rcases bw with bw | ⟨g, hg, bw⟩
    · exact Or.inl (aw.trans bw)
    · refine Or.inr ⟨g, ?_, aw.trans bw⟩
      simp only [List.mem_cons, List.mem_singleton] at hg ⊢
      tauto
  · have hf2 : f = 7/5 := by simpa using hf
    subst hf2
    rcases bw with bw | ⟨g, hg, bw⟩
    · refine Or.inr ⟨7/5, by norm_num, ?_⟩
      rw [aw, bw]
    · simp only [List.mem_cons, List.not_mem_nil, or_false, List.mem_singleton] at hg
      rcases hg with rfl | rfl
      · refine Or.inr ⟨3/2 * (7/5), by norm_num, ?_⟩
        rw [aw, bw]
        ring
      · refine Or.inr ⟨13/10 * (7/5), by norm_num, ?_⟩
        rw [aw, bw]
        ring

theorem mem_bm25Score_snd {ps : List Passage} {q : String} {sp : ℝ × Passage}
    (h : sp ∈ bm25Score ps q) : sp.2 ∈ ps := by
  unfold bm25Score at h
  by_cases ht : tokenize q = []
  · rw [if_pos ht] at h
    obtain ⟨p, hp, hsp⟩ := List.mem_map.mp h
    rw [← hsp]
    exact hp
  · rw [if_neg ht, List.mem_mergeSort] at h
    unfold bm25ScoredRaw at h
    obtain ⟨ip, hip, hsp⟩ := List.mem_map.mp h
    rw [← hsp]
    have h2 : ip.2 ∈ ps.enum.map Prod.snd := List.mem_map_of_mem Prod.snd hip
    rwa [List.enum_map_snd] at h2

/-- Claim C3: `retrieve` leaves the store unchanged (its state transformer
returns the same store), both boosting passes map the candidate list to
pointwise field-preserving weight-only copies, and every returned passage
is a field-preserving weight-only copy (factor 1, 1.5, 1.3, 1.4, or a
product of the two applicable boosts) of a stored passage. -/
theorem claim_C3_retrieve_frame (st : Store) (q : String) (t : Option String)
    (a : Option String) (m : Nat) (ps : List Passage) (al : Option String) :
    (retrieveSt st q t a m).2 = st ∧
    List.Forall₂ (CopyBoost [3/2, 13/10]) (filterByAlignment ps al) ps ∧
    List.Forall₂ (CopyBoost [7/5]) (applySectionBoost q ps) ps ∧
    ∀ r ∈ retrieve st q t a m, ∃ p ∈ getPassages st t,
      CopyBoost [3/2, 13/10, 7/5, 3/2 * (7/5), 13/10 * (7/5)] r.1 p := by
  refine ⟨rfl, filterByAlignment_forall2 ps al, applySectionBoost_forall2 q ps, ?_⟩
  intro r hr
  unfold retrieve at hr
  by_cases hp : getPassages st t = []
  · rw [if_pos hp] at hr
    cases hr
  · rw [if_neg hp] at hr
    obtain ⟨sp, hsp, hr2⟩ := List.mem_map.mp hr
    have hsp2 : sp ∈ bm25Score (applySectionBoost q (filterByAlignment (getPassages st t) a)) q :=
      (List.take_sublist m _).mem hsp
    have hmem : sp.2 ∈ applySectionBoost q (filterByAlignment (getPassages st t) a) :=
      mem_bm25Score_snd hsp2
    obtain ⟨y, hy, hxy⟩ := forall2_mem_left (applySectionBoost_forall2 q _) hmem
    obtain ⟨p, hps, hyz⟩ := forall2_mem_left (filterByAlignment_forall2 _ a) hy
    refine ⟨p, hps, ?_⟩
    rw [← hr2]
    exact copyBoost_comp hxy hyz

/-- Claim C3 witness: the statement at a concrete store and query, with
the final conjunct instantiated at the returned entry of a singleton
result. -/
theorem claim_C3_witness :
    (retrieveSt twoStore "" (some "AA") none 2).2 = twoStore ∧
    List.Forall₂ (CopyBoost [3/2, 13/10]) (filterByAlignment [pLow, pHigh] (some "t1")) [pLow, pHigh] ∧
    List.Forall₂ (CopyBoost [7/5]) (applySectionBoost "" [pLow, pHigh]) [pLow, pHigh] ∧
    ∀ r ∈ retrieve twoStore "" (some "AA") none 2, ∃ p ∈ getPassages twoStore (some "AA"),
      CopyBoost [3/2, 13/10, 7/5, 3/2 * (7/5), 13/10 * (7/5)] r.1 p :=
  claim_C3_retrieve_frame twoStore "" (some "AA") none 2 [pLow, pHigh] (some "t1")

theorem getD_append_length {α : Type} (pre post : List α) (d y : α) :
    (pre ++ d :: post).getD pre.length y = d := by
  rw [List.getD_eq_getElem?_getD, List.getElem?_append_right (le_refl _)]
  simp

theorem docTokens_append_mid (pre post : List Passage) (d : Passage) :
    docTokens (pre ++ d :: post) = docTokens pre ++ tokenize d.content :: docTokens post := by
  simp [docTokens]

theorem docTokens_getD_mid (pre post : List Passage) (d : Passage) :
    (docTokens (pre ++ d :: post)).getD pre.length [] = tokenize d.content := by
  rw [docTokens_append_mid]
  have h := getD_append_length (docTokens pre) (docTokens post) (tokenize d.content) []
  have hlen : (docTokens pre).length = pre.length := by
    unfold docTokens
    exact List.length_map _ _
  rwa [hlen] at h

theorem idf_nonneg (ps : List Passage) (t : String) : 0 ≤ idf ps t := by
  unfold idf
  apply Real.log_nonneg
  have hdf : dfCount ps t ≤ ps.length := by
    unfold dfCount
    have h : (docTokens ps).countP (fun toks => toks.contains t) ≤ (docTokens ps).length :=
      List.countP_le_length _
    rwa [docTokens, List.length_map] at h
  have key : (1 : ℚ) ≤ ((ps.length : ℚ) - (dfCount ps t : ℚ) + 1/2) / ((dfCount ps t : ℚ) + 1/2) + 1 := by
    have h1 : (0 : ℚ) ≤ ((ps.length : ℚ) - (dfCount ps t : ℚ) + 1/2) / ((dfCount ps t : ℚ) + 1/2) := by
      apply div_nonneg
      · have h2 : (dfCount ps t : ℚ) ≤ (ps.length : ℚ) := by exact_mod_cast hdf
        linarith
      · positivity
    linarith
  exact_mod_cast key

theorem ratFactor_nonneg (tf dl avg : ℚ) (h : 0 ≤ tf) (h2 : 0 ≤ dl) (h3 : 0 ≤ avg) :
    0 ≤ tf * (k1 + 1) / (tf + k1 * (1 - b + b * dl / avg)) := by
  unfold k1 b
  have hd : (0 : ℚ) ≤ 3 / 4 * dl / avg := div_nonneg (by linarith) h3
  apply div_nonneg
  · linarith
  · linarith

theorem bm25_rat_step (T D LL NN : ℚ) (hT : 1 ≤ T) (hTD : T ≤ D) (hDL : D ≤ LL) (hN : 1 ≤ NN) :
    T * (k1 + 1) / (T + k1 * (1 - b + b * D / (LL / NN))) ≤
      (T + 1) * (k1 + 1) / ((T + 1) + k1 * (1 - b + b * (D + 1) / ((LL + 1) / NN))) := by
  unfold k1 b
  have hLL : (0 : ℚ) < LL := by linarith
  have hLL1 : (0 : ℚ) < LL + 1 := by linarith
  have hNN : (0 : ℚ) < NN := by linarith
  have hA0 : (0 : ℚ) ≤ D * NN / LL :=
    div_nonneg (mul_nonneg (by linarith) (by linarith)) (le_of_lt hLL)
  have hB0 : (0 : ℚ) ≤ (D + 1) * NN / (LL + 1) :=
    div_nonneg (mul_nonneg (by linarith) (by linarith)) (le_of_lt hLL1)
  have hdiv : 3 / 4 * D / (LL / NN) = 3 / 4 * (D * NN / LL) := by
    field_simp
    ring
  have hdiv2 : 3 / 4 * (D + 1) / ((LL + 1) / NN) = 3 / 4 * ((D + 1) * NN / (LL + 1)) := by
    field_simp
    ring
  rw [hdiv, hdiv2]
  have hXY : T * ((D + 1) * NN / (LL + 1)) ≤ (T + 1) * (D * NN / LL) := by
    rw [← mul_div_assoc, ← mul_div_assoc, div_le_div_iff hLL1 hLL]
    nlinarith [mul_nonneg (mul_nonneg hNN.le hLL.le) (sub_nonneg.mpr hTD),
      mul_nonneg (mul_nonneg hNN.le (by linarith : (0 : ℚ) ≤ T)) (by linarith : (0 : ℚ) ≤ D),
      mul_nonneg hNN.le (by linarith : (0 : ℚ) ≤ D)]
  have hpos1 : (0 : ℚ) < T + 3 / 2 * (1 - 3 / 4 + 3 / 4 * (D * NN / LL)) := by linarith
  have hpos2 : (0 : ℚ) < (T + 1) + 3 / 2 * (1 - 3 / 4 + 3 / 4 * ((D + 1) * NN / (LL + 1))) := by
    linarith
  rw [div_le_div_iff hpos1 hpos2]
  nlinarith [hXY]

theorem avgDl_nonneg (ps : List Passage) : 0 ≤ avgDl ps := by
  unfold avgDl
  positivity

theorem docLens_append_mid (pre post : List Passage) (d : Passage) :
    docLens (pre ++ d :: post) = docLens pre ++ (tokenize d.content).length :: docLens post := by
  simp [docLens, docTokens]

/-- Claim C4 (counterexample): adding one occurrence of the term `cow` to
the candidate document `"zebra"` (giving `"zebra cow"`, all other fields
and candidates unchanged) strictly DECREASES that document's BM25 score
for the query `"zebra"` — the longer document is penalised by the length
normalisation.  So increasing a single term's frequency can decrease the
score. -/
theorem claim_C4_counterexample :
    scoreDoc [zebraCowDoc, cowDoc] (tokenize "zebra") 0 <
      scoreDoc [zebraDoc, cowDoc] (tokenize "zebra") 0 ∧
    tokenize zebraCowDoc.content = tokenize zebraDoc.content ++ ["cow"] ∧
    zebraCowDoc.weight = zebraDoc.weight ∧
    zebraCowDoc.ticker = zebraDoc.ticker ∧
    zebraCowDoc.tags = zebraDoc.tags := by
  refine ⟨?_, by decide, rfl, rfl, rfl⟩
  have hq : tokenize "zebra" = ["zebra"] := by decide
  have hdt : (docTokens [zebraDoc, cowDoc]).getD 0 [] = ["zebra"] := by decide
  have hdt2 : (docTokens [zebraCowDoc, cowDoc]).getD 0 [] = ["zebra", "cow"] := by decide
  have hsum : (docLens [zebraDoc, cowDoc]).sum = 2 := by decide
  have hsum2 : (docLens [zebraCowDoc, cowDoc]).sum = 3 := by decide
  have hav : avgDl [zebraDoc, cowDoc] = 1 := by
    unfold avgDl
    rw [hsum]
    norm_num
  have hav2 : avgDl [zebraCowDoc, cowDoc] = 3/2 := by
    unfold avgDl
    rw [hsum2]
    norm_num
  have hdf : dfCount [zebraDoc, cowDoc] "zebra" = 1 := by decide
  have hdf2 : dfCount [zebraCowDoc, cowDoc] "zebra" = 1 := by decide
  have hc1 : (["zebra"] : List String).count "zebra" = 1 := by decide
  have hc2 : (["zebra", "cow"] : List String).count "zebra" = 1 := by decide
  have hwA : zebraDoc.weight = 1 := rfl
  have hwB : zebraCowDoc.weight = 1 := rfl
  have hA : scoreDoc [zebraDoc, cowDoc] (tokenize "zebra") 0 = Real.log 2 := by
    simp only [scoreDoc, idf, hq, hdt, hav, hdf, hc1, List.map_cons, List.map_nil,
      List.sum_cons, List.sum_nil, List.length_cons, List.length_nil, k1, b]
    norm_num [hwA]
  have hB : scoreDoc [zebraCowDoc, cowDoc] (tokenize "zebra") 0 = Real.log 2 * (20/23) := by
    simp only [scoreDoc, idf, hq, hdt2, hav2, hdf2, hc2, List.map_cons, List.map_nil,
      List.sum_cons, List.sum_nil, List.length_cons, List.length_nil, k1, b]
    norm_num [hwB]
  rw [hA, hB]
  have hpos := Real.log_pos (by norm_num : (1 : ℝ) < 2)
  nlinarith

/-- Claim C4 (amended): for a fixed candidate set and a query all of whose
tokens equal a single term `t`, adding one occurrence of `t` to one
candidate document's content — all else (the other candidates, the
document's non-negative weight and its other fields) equal — never
decreases that document's BM25 score.  (The counterexample above forces
the restriction to the query's own term: an added occurrence of any other
term grows the length-normalisation penalty without any offsetting
term-frequency gain.) -/
theorem claim_C4_amended_single_term_monotone
    (pre post : List Passage) (d dM : Passage) (t : String) (q : String)
    (hw : dM.weight = d.weight) (hw0 : 0 ≤ d.weight)
    (htok : tokenize dM.content = tokenize d.content ++ [t])
    (hq : ∀ u ∈ tokenize q, u = t) :
    scoreDoc (pre ++ d :: post) (tokenize q) pre.length ≤
      scoreDoc (pre ++ dM :: post) (tokenize q) pre.length := by
  have hN1 : 1 ≤ (pre ++ d :: post).length := by
    simp only [List.length_append, List.length_cons]
    omega
  have hN1M : 1 ≤ (pre ++ dM :: post).length := by
    simp only [List.length_append, List.length_cons]
    omega
  have hNeq : (pre ++ dM :: post).length = (pre ++ d :: post).length := by simp
  have hsum : (docLens (pre ++ dM :: post)).sum = (docLens (pre ++ d :: post)).sum + 1 := by
    rw [docLens_append_mid, docLens_append_mid, htok]
    simp [List.sum_append]
    omega
  have hdl_le : (tokenize d.content).length ≤ (docLens (pre ++ d :: post)).sum := by
    rw [docLens_append_mid]
    rw [List.sum_append, List.sum_cons]
    omega
  have havg : avgDl (pre ++ d :: post) =
      ((docLens (pre ++ d :: post)).sum : ℚ) / (((pre ++ d :: post).length : Nat) : ℚ) := by
    unfold avgDl
    rw [Nat.max_eq_left hN1]
  have havg2 : avgDl (pre ++ dM :: post) =
      (((docLens (pre ++ d :: post)).sum + 1 : Nat) : ℚ) / (((pre ++ d :: post).length : Nat) : ℚ) := by
    unfold avgDl
    rw [Nat.max_eq_left hN1M, hsum, hNeq]
  simp only [scoreDoc]
  rw [docTokens_getD_mid, docTokens_getD_mid, getD_append_length, getD_append_length, htok, hw]
  apply mul_le_mul_of_nonneg_right
  · apply List.sum_le_sum
    intro u hu
    rw [hq u hu]
    have hcnt : (tokenize d.content ++ [t]).count t = (tokenize d.content).count t + 1 := by
      simp
    have hlen : (tokenize d.content ++ [t]).length = (tokenize d.content).length + 1 := by
      simp
    by_cases htf : t ∈ tokenize d.content
    · have hdfeq : dfCount (pre ++ dM :: post) t = dfCount (pre ++ d :: post) t := by
        unfold dfCount
        rw [docTokens_append_mid, docTokens_append_mid, htok,
          List.countP_append, List.countP_append, List.countP_cons, List.countP_cons]
        have h1 : ((tokenize d.content ++ [t]).contains t) = true := by simp
        have h2 : ((tokenize d.content).contains t) = true := by simpa using htf
        simp only [h1, h2]
      have hidf : idf (pre ++ dM :: post) t = idf (pre ++ d :: post) t := by
        unfold idf
        rw [hdfeq, hNeq]
      rw [hidf, hcnt, hlen, havg, havg2]
      apply mul_le_mul_of_nonneg_left _ (idf_nonneg _ t)
      rw [Rat.cast_le]
      simp only [Nat.cast_add, Nat.cast_one]
      exact bm25_rat_step ((tokenize d.content).count t) ((tokenize d.content).length)
        ((docLens (pre ++ d :: post)).sum) ((pre ++ d :: post).length)
        (by exact_mod_cast List.count_pos_iff.mpr htf)
        (by exact_mod_cast List.count_le_length t (tokenize d.content))
        (by exact_mod_cast hdl_le)
        (by exact_mod_cast hN1)
    · have hc0 : (tokenize d.content).count t = 0 := List.count_eq_zero.mpr htf
      rw [hc0]
      simp only [Nat.cast_zero, zero_mul, zero_div, Rat.cast_zero, mul_zero]
      refine mul_nonneg (idf_nonneg _ t) ?_
      have hnn := ratFactor_nonneg (((tokenize d.content ++ [t]).count t : ℚ))
        (((tokenize d.content ++ [t]).length : ℚ)) (avgDl (pre ++ dM :: post))
        (Nat.cast_nonneg _) (Nat.cast_nonneg _) (avgDl_nonneg _)
      exact_mod_cast hnn
  · have h0 : (0 : ℚ) ≤ d.weight := hw0
    exact_mod_cast h0

/-- Claim C4 witness: the amended monotonicity at a concrete corpus —
adding one more `zebra` to the document `"zebra"` for the query
`"zebra"`. -/
theorem claim_C4_witness :
    zebraZebraDoc.weight = zebraDoc.weight ∧ (0 : ℚ) ≤ zebraDoc.weight ∧
    tokenize zebraZebraDoc.content = tokenize zebraDoc.content ++ ["zebra"] ∧
    (∀ u ∈ tokenize "zebra", u = "zebra") ∧
    scoreDoc ([] ++ zebraDoc :: [cowDoc]) (tokenize "zebra") (List.length ([] : List Passage)) ≤
      scoreDoc ([] ++ zebraZebraDoc :: [cowDoc]) (tokenize "zebra") (List.length ([] : List Passage)) :=
  ⟨rfl, by norm_num [zebraDoc], by decide, by decide,
    claim_C4_amended_single_term_monotone [] [cowDoc] zebraDoc zebraZebraDoc "zebra" "zebra"
      rfl (by norm_num [zebraDoc]) (by decide) (by decide)⟩

theorem getD_map_lt {α β : Type} (f : α → β) (l : List α) (i : Nat) (hi : i < l.length)
    (x : α) (y : β) : (l.map f).getD i y = f (l.getD i x) := by
  rw [List.getD_eq_getElem?_getD, List.getD_eq_getElem?_getD, List.getElem?_map,
    List.getElem?_eq_getElem hi]
  simp

theorem docTokens_map_boost (l : List Passage) (cond : Passage → Bool) (c : ℚ) :
    docTokens (l.map (fun p => if cond p then { p with weight := p.weight * c } else p)) =
      docTokens l := by
  unfold docTokens
  rw [List.map_map]
  apply List.map_congr_left
  intro p _
  simp only [Function.comp_def]
  split_ifs <;> rfl

theorem docTokens_applySectionBoost (q : String) (l : List Passage) :
    docTokens (applySectionBoost q l) = docTokens l := by
  simp only [applySectionBoost]
  split_ifs
  · rfl
  · exact docTokens_map_boost l _ _

theorem length_applySectionBoost (q : String) (l : List Passage) :
    (applySectionBoost q l).length = l.length := by
  simp only [applySectionBoost]
  split_ifs
  · rfl
  · exact List.length_map _ _

theorem scoreDoc_nonneg (ps : List Passage) (qt : List String) (i : Nat)
    (hw : 0 ≤ (ps.getD i padPassage).weight) : 0 ≤ scoreDoc ps qt i := by
  simp only [scoreDoc]
  apply mul_nonneg
  · apply List.sum_nonneg
    intro x hx
    obtain ⟨u, hu, hxu⟩ := List.mem_map.mp hx
    rw [← hxu]
    refine mul_nonneg (idf_nonneg _ u) ?_
    have h := ratFactor_nonneg ((((docTokens ps).getD i []).count u : ℚ))
      ((((docTokens ps).getD i []).length : ℚ)) (avgDl ps)
      (Nat.cast_nonneg _) (Nat.cast_nonneg _) (avgDl_nonneg _)
    exact_mod_cast h
  · exact_mod_cast hw

theorem scoreDoc_weight_scale (ps psB : List Passage) (hdt : docTokens psB = docTokens ps)
    (hN : psB.length = ps.length) (qt : List String) (k : Nat) (c : ℚ)
    (hwk : (psB.getD k padPassage).weight = (ps.getD k padPassage).weight * c) :
    scoreDoc psB qt k = scoreDoc ps qt k * (c : ℝ) := by
  have havg : avgDl psB = avgDl ps := by
    unfold avgDl docLens
    rw [hdt, hN]
  have hidf : ∀ t, idf psB t = idf ps t := by
    intro t
    unfold idf dfCount
    rw [hdt, hN]
  simp only [scoreDoc, hdt, havg, hwk, hidf]
  push_cast
  ring

theorem boostPair_core (cands : List Passage) (q : String) (tag : String) (c : ℚ)
    (hc : 1 ≤ c) (fa : List Passage)
    (hfa : fa = cands.map (fun p =>
      if p.tags.contains tag then { p with weight := p.weight * c } else p))
    (i j : Nat) (hi : i < cands.length) (hj : j < cands.length)
    (htagI : tag ∈ (cands.getD i padPassage).tags)
    (htagJ : tag ∉ (cands.getD j padPassage).tags)
    (hsI : (cands.getD i padPassage).sectionName ∈ detectSectionBoost q)
    (hsJ : (cands.getD j padPassage).sectionName ∉ detectSectionBoost q)
    (hw : 0 ≤ (cands.getD i padPassage).weight) :
    ((applySectionBoost q fa).getD i padPassage).weight
        = (cands.getD i padPassage).weight * c * (7/5) ∧
      (applySectionBoost q fa).getD j padPassage = cands.getD j padPassage ∧
      (scoreDoc cands (tokenize q) j ≤ scoreDoc cands (tokenize q) i →
        scoreDoc (applySectionBoost q fa) (tokenize q) j
          ≤ scoreDoc (applySectionBoost q fa) (tokenize q) i) := by
  have hne : detectSectionBoost q ≠ [] := List.ne_nil_of_mem hsI
  have hAB : applySectionBoost q fa = fa.map (fun p =>
      if (detectSectionBoost q).contains p.sectionName then
        { p with weight := p.weight * (7/5) } else p) := by
    simp only [applySectionBoost]
    rw [if_neg hne]
  have hlenFa : fa.length = cands.length := by
    rw [hfa]; exact List.length_map _ _
  have hcI : ((cands.getD i padPassage).tags.contains tag) = true := by simpa using htagI
  have hcJ : ¬ ((cands.getD j padPassage).tags.contains tag) = true := by simpa using htagJ
  have hsIc : ((detectSectionBoost q).contains (cands.getD i padPassage).sectionName) = true := by
    simpa using hsI
  have hsJc : ¬ ((detectSectionBoost q).contains (cands.getD j padPassage).sectionName) = true := by
    simpa using hsJ
  have hfaI : fa.getD i padPassage
      = { cands.getD i padPassage with weight := (cands.getD i padPassage).weight * c } := by
    rw [hfa, getD_map_lt _ _ i hi padPassage padPassage, if_pos hcI]
  have hfaJ : fa.getD j padPassage = cands.getD j padPassage := by
    rw [hfa, getD_map_lt _ _ j hj padPassage padPassage, if_neg hcJ]
  have hbI : (applySectionBoost q fa).getD i padPassage
      = { cands.getD i padPassage with
          weight := (cands.getD i padPassage).weight * c * (7/5) } := by
    rw [hAB, getD_map_lt _ _ i (hlenFa ▸ hi) padPassage padPassage, hfaI]
    rw [if_pos hsIc]
  have hbJ : (applySectionBoost q fa).getD j padPassage = cands.getD j padPassage := by
    rw [hAB, getD_map_lt _ _ j (hlenFa ▸ hj) padPassage padPassage, hfaJ, if_neg hsJc]
  refine ⟨by rw [hbI], hbJ, ?_⟩
  intro hscore
  have hdt : docTokens (applySectionBoost q fa) = docTokens cands := by
    rw [docTokens_applySectionBoost, hfa, docTokens_map_boost]
  have hN : (applySectionBoost q fa).length = cands.length := by
    rw [length_applySectionBoost, hlenFa]
  have hsi : scoreDoc (applySectionBoost q fa) (tokenize q) i
      = scoreDoc cands (tokenize q) i * ((c * (7/5) : ℚ) : ℝ) :=
    scoreDoc_weight_scale cands (applySectionBoost q fa) hdt hN (tokenize q) i (c * (7/5))
      (by rw [hbI]; ring)
  have hsj : scoreDoc (applySectionBoost q fa) (tokenize q) j
      = scoreDoc cands (tokenize q) j * ((1 : ℚ) : ℝ) :=
    scoreDoc_weight_scale cands (applySectionBoost q fa) hdt hN (tokenize q) j 1
      (by rw [hbJ]; ring)
  have hnn : 0 ≤ scoreDoc cands (tokenize q) i := scoreDoc_nonneg cands (tokenize q) i hw
  rw [hsi, hsj]
  have hcR : (1 : ℝ) ≤ (c : ℝ) := by exact_mod_cast hc
  have hc1 : (1 : ℝ) ≤ ((c * (7/5) : ℚ) : ℝ) := by
    push_cast
    nlinarith [hcR]
  push_cast
  push_cast at hc1
  nlinarith [hscore, hnn, hc1]

/-- C7: boost composition. For candidate passages of a ticker, a passage
whose section is keyword-matched by the query and which also matches the
supplied alignment gets final weight `baseWeight * 1.5 * 1.4` when the
alignment is a tier tag in its tags (`baseWeight * 1.3 * 1.4` when the
resolved direction is in its tags), while a passage (with non-negative
base weight at the boosted index) receiving neither boost is unchanged,
and the boosted passage's BM25 rank relative to such an unboosted passage
never drops: if it scored at least as high before boosting, it still does
after. -/
theorem claim_C7_boost_composition (cands : List Passage) (q al : String)
    (i j : Nat) (hi : i < cands.length) (hj : j < cands.length)
    (hsI : (cands.getD i padPassage).sectionName ∈ detectSectionBoost q)
    (hsJ : (cands.getD j padPassage).sectionName ∉ detectSectionBoost q)
    (hw : 0 ≤ (cands.getD i padPassage).weight) :
    ∀ boosted, boosted = applySectionBoost q (filterByAlignment cands (some al)) →
    ((alignLower al ∈ ["t1", "t2", "t3", "t4"] ∧
        alignLower al ∈ (cands.getD i padPassage).tags ∧
        alignLower al ∉ (cands.getD j padPassage).tags) →
      (boosted.getD i padPassage).weight
          = (cands.getD i padPassage).weight * (3/2) * (7/5) ∧
        boosted.getD j padPassage = cands.getD j padPassage ∧
        (scoreDoc cands (tokenize q) j ≤ scoreDoc cands (tokenize q) i →
          scoreDoc boosted (tokenize q) j ≤ scoreDoc boosted (tokenize q) i)) ∧
    ((alignLower al ∉ ["t1", "t2", "t3", "t4"] ∧
        (directionMap.lookup (alignLower al)).getD (alignLower al)
          ∈ ["upside", "downside", "neutral"] ∧
        (directionMap.lookup (alignLower al)).getD (alignLower al)
          ∈ (cands.getD i padPassage).tags ∧
        (directionMap.lookup (alignLower al)).getD (alignLower al)
          ∉ (cands.getD j padPassage).tags) →
      (boosted.getD i padPassage).weight
          = (cands.getD i padPassage).weight * (13/10) * (7/5) ∧
        boosted.getD j padPassage = cands.getD j padPassage ∧
        (scoreDoc cands (tokenize q) j ≤ scoreDoc cands (tokenize q) i →
          scoreDoc boosted (tokenize q) j ≤ scoreDoc boosted (tokenize q) i)) := by
  intro boosted hb
  constructor
  · rintro ⟨htier, htagI, htagJ⟩
    have hne : al ≠ "" := by
      intro h
      rw [h] at htier
      have : alignLower "" = "" := rfl
      rw [this] at htier
      exact absurd htier (by decide)
    have hcont : (["t1", "t2", "t3", "t4"].contains (alignLower al)) = true := by
      simpa using htier
    have hfa : filterByAlignment cands (some al) = cands.map (fun p =>
        if p.tags.contains (alignLower al) then
          { p with weight := p.weight * (3/2) } else p) := by
      simp only [filterByAlignment]
      rw [if_neg hne, if_pos hcont]
    rw [hb]
    exact boostPair_core cands q (alignLower al) (3/2) (by norm_num)
      (filterByAlignment cands (some al)) hfa i j hi hj htagI htagJ hsI hsJ hw
  · rintro ⟨htier, hdirmem, htagI, htagJ⟩
    have hne : al ≠ "" := by
      intro h
      rw [h] at hdirmem
      have : alignLower "" = "" := rfl
      rw [this] at hdirmem
      exact absurd hdirmem (by decide)
    have hncont : ¬ (["t1", "t2", "t3", "t4"].contains (alignLower al)) = true := by
      simpa using htier
    have hdcont : (["upside", "downside", "neutral"].contains
        ((directionMap.lookup (alignLower al)).getD (alignLower al))) = true := by
      simpa using hdirmem
    have hfa : filterByAlignment cands (some al) = cands.map (fun p =>
        if p.tags.contains ((directionMap.lookup (alignLower al)).getD (alignLower al)) then
          { p with weight := p.weight * (13/10) } else p) := by
      simp only [filterByAlignment]
      rw [if_neg hne, if_neg hncont, if_pos hdcont]
    rw [hb]
    exact boostPair_core cands q ((directionMap.lookup (alignLower al)).getD (alignLower al))
      (13/10) (by norm_num) (filterByAlignment cands (some al)) hfa i j hi hj
      htagI htagJ hsI hsJ hw

theorem claim_C7_witness :
    ((applySectionBoost "overview" (filterByAlignment [pBoosted, pPlain] (some "t1"))).getD 0
        padPassage).weight
      = ([pBoosted, pPlain].getD 0 padPassage).weight * (3/2) * (7/5) ∧
    (applySectionBoost "overview" (filterByAlignment [pBoosted, pPlain] (some "t1"))).getD 1
        padPassage = [pBoosted, pPlain].getD 1 padPassage := by
  have h := claim_C7_boost_composition [pBoosted, pPlain] "overview" "t1" 0 1
    (by decide) (by decide) (by decide) (by decide)
    (by rw [show ([pBoosted, pPlain].getD 0 padPassage).weight = 1 from rfl]; norm_num)
    (applySectionBoost "overview" (filterByAlignment [pBoosted, pPlain] (some "t1"))) rfl
  have h2 := h.1 ⟨by decide, by decide, by decide⟩
  exact ⟨h2.1, h2.2.1⟩

theorem mem_ite_singleton {c : Prop} [Decidable c] {x p : Passage}
    (h : p ∈ (if c then [x] else [])) : p = x := by
  split at h
  · simpa using h
  · simp at h

theorem mem_ite_nil {c : Prop} [Decidable c] {l : List Passage} {p : Passage}
    (h : p ∈ (if c then l else [])) : p ∈ l := by
  split at h
  · exact h
  · simp at h

theorem chunkStock_weight_pos (tkr : String) (data : JVal) (ref fresh : Option JVal)
    (p : Passage) (hp : p ∈ chunkStock tkr data ref fresh) : 0 < p.weight := by
  rcases List.mem_append.mp hp with h | hF
  · rcases List.mem_append.mp h with h | hR
    · rcases List.mem_append.mp h with h | hTA
      · rcases List.mem_append.mp h with h | hG
        · rcases List.mem_append.mp h with h | hT
          · rcases List.mem_append.mp h with h | hD
            · rcases List.mem_append.mp h with h | hA
              · rcases List.mem_append.mp h with h | hE
                · rcases List.mem_append.mp h with h | hN
                  · rcases List.mem_append.mp h with h | hH
                    · rcases List.mem_append.mp h with h | hV
                      · rcases List.mem_append.mp h with h | hS
                        · rcases List.mem_append.mp h with h | hI
                          · rcases List.mem_append.mp h with hO | hM
                            · have hx := mem_ite_singleton hO
                              subst hx
                              show (0 : ℚ) < 1
                              norm_num
                            · have hx := mem_ite_singleton hM
                              subst hx
                              show (0 : ℚ) < 4/5
                              norm_num
                          · have hx := mem_ite_singleton hI
                            subst hx
                            show (0 : ℚ) < 9/10
                            norm_num
                        · have hx := mem_ite_singleton hS
                          subst hx
                          show (0 : ℚ) < 1
                          norm_num
                      · have hx := mem_ite_singleton hV
                        subst hx
                        show (0 : ℚ) < 6/5
                        norm_num
                    · obtain ⟨a, ha, hfa⟩ := List.mem_map.mp hH
                      subst hfa
                      show (0 : ℚ) < 13/10
                      norm_num
                  · have h2 := mem_ite_nil hN
                    rcases List.mem_append.mp h2 with h3 | h3
                    · rcases List.mem_append.mp h3 with h4 | h4
                      · rcases List.mem_append.mp h4 with h5 | h5
                        · have hx := mem_ite_singleton h5
                          subst hx
                          show (0 : ℚ) < 11/10
                          norm_num
                        · have hx := mem_ite_singleton h5
                          subst hx
                          show (0 : ℚ) < 1
                          norm_num
                      · have hx := mem_ite_singleton h4
                        subst hx
                        show (0 : ℚ) < 1
                        norm_num
                    · have hx := mem_ite_singleton h3
                      subst hx
                      show (0 : ℚ) < 1
                      norm_num
                · obtain ⟨l, hl, hpl⟩ := List.mem_flatten.mp hE
                  obtain ⟨a, ha, hfa⟩ := List.mem_map.mp hl
                  subst hfa
                  rcases List.mem_cons.mp hpl with h1 | h1
                  · subst h1
                    show (0 : ℚ) < 11/10
                    norm_num
                  · have hx := mem_ite_singleton h1
                    subst hx
                    show (0 : ℚ) < 4/5
                    norm_num
              · have hx := mem_ite_singleton hA
                subst hx
                show (0 : ℚ) < 1
                norm_num
            · have h2 := mem_ite_nil hD
              rcases List.mem_append.mp h2 with h3 | h3
              · obtain ⟨a, ha, hfa⟩ := List.mem_map.mp h3
                subst hfa
                show (0 : ℚ) < 6/5
                norm_num
              · have hx := mem_ite_singleton h3
                subst hx
                show (0 : ℚ) < 3/5
                norm_num
          · obtain ⟨a, ha, hfa⟩ := List.mem_map.mp hT
            subst hfa
            show (0 : ℚ) < 6/5
            norm_num
        · have hx := mem_ite_singleton hG
          subst hx
          show (0 : ℚ) < 9/10
          norm_num
      · have hx := mem_ite_singleton hTA
        subst hx
        show (0 : ℚ) < 4/5
        norm_num
    · cases ref with
      | none => exact absurd hR (List.not_mem_nil p)
      | some refv =>
        have hx := mem_ite_singleton hR
        subst hx
        show (0 : ℚ) < 7/10
        norm_num
  · cases fresh with
    | none => exact absurd hF (List.not_mem_nil p)
    | some freshv =>
      have hx := mem_ite_singleton hF
      subst hx
      show (0 : ℚ) < 1/2
      norm_num

theorem idf_pos (ps : List Passage) (t : String) : 0 < idf ps t := by
  unfold idf
  apply Real.log_pos
  have hdf : dfCount ps t ≤ ps.length := by
    unfold dfCount
    have h : (docTokens ps).countP (fun toks => toks.contains t) ≤ (docTokens ps).length :=
      List.countP_le_length _
    rwa [docTokens, List.length_map] at h
  have key : (1 : ℚ) < ((ps.length : ℚ) - (dfCount ps t : ℚ) + 1/2) / ((dfCount ps t : ℚ) + 1/2) + 1 := by
    have h2 : (dfCount ps t : ℚ) ≤ (ps.length : ℚ) := by exact_mod_cast hdf
    have h1 : (0 : ℚ) < ((ps.length : ℚ) - (dfCount ps t : ℚ) + 1/2) / ((dfCount ps t : ℚ) + 1/2) := by
      apply div_pos
      · linarith
      · positivity
    linarith
  exact_mod_cast key

theorem forall2_weight_nonneg {facs : List ℚ} (hfacs : ∀ f ∈ facs, 0 ≤ f)
    {l l2 : List Passage} (h : List.Forall₂ (CopyBoost facs) l l2)
    (hl2 : ∀ p ∈ l2, 0 ≤ p.weight) : ∀ p ∈ l, 0 ≤ p.weight := by
  induction h with
  | nil =>
    intro p hp
    simp at hp
  | cons hab htail ih =>
    intro p hp
    rcases List.mem_cons.mp hp with rfl | hp
    · obtain ⟨-, -, -, -, -, hw⟩ := hab
      have hb := hl2 _ (List.mem_cons_self _ _)
      rcases hw with hw | ⟨f, hf, hw⟩
      · rw [hw]
        exact hb
      · rw [hw]
        exact mul_nonneg hb (hfacs f hf)
    · exact ih (fun q hq => hl2 q (List.mem_cons_of_mem _ hq)) p hp

theorem bm25Score_fst_nonneg {ps : List Passage} {q : String}
    (hw : ∀ p ∈ ps, 0 ≤ p.weight) : ∀ sp ∈ bm25Score ps q, 0 ≤ sp.1 := by
  intro sp hsp
  unfold bm25Score at hsp
  by_cases ht : tokenize q = []
  · rw [if_pos ht] at hsp
    obtain ⟨p, hp, hsp⟩ := List.mem_map.mp hsp
    rw [← hsp]
  · rw [if_neg ht, List.mem_mergeSort] at hsp
    unfold bm25ScoredRaw at hsp
    obtain ⟨ip, hip, hsp⟩ := List.mem_map.mp hsp
    have hg := List.mem_enum_iff_get?.mp hip
    have hgetd : ps.getD ip.1 padPassage = ip.2 := by
      rw [List.getD_eq_getElem?_getD, ← List.get?_eq_getElem?, hg]
      rfl
    rw [← hsp]
    apply scoreDoc_nonneg
    rw [hgetd]
    exact hw ip.2 (List.get?_mem hg)

/-- C10: every relevance score returned by `retrieve` is non-negative.
The Okapi IDF is strictly positive (its argument exceeds 1 since the
document frequency never exceeds the corpus size), every passage weight
emitted by the chunker is strictly positive, and whenever the candidate
passages all have non-negative weight (as those built by the chunker do),
every `relevance_score` in the result of `retrieve` is non-negative:
boosts only multiply by positive factors, term contributions are
non-negative, and `round(·, 3)` preserves sign. -/
theorem claim_C10_nonneg_scores :
    (∀ (ps : List Passage) (t : String), 0 < idf ps t) ∧
    (∀ (tkr : String) (data : JVal) (ref fresh : Option JVal) (p : Passage),
      p ∈ chunkStock tkr data ref fresh → 0 < p.weight) ∧
    (∀ (st : Store) (q : String) (t a : Option String) (m : Nat),
      (∀ p ∈ getPassages st t, 0 ≤ p.weight) →
      ∀ r ∈ retrieve st q t a m, 0 ≤ r.2) := by
  refine ⟨idf_pos, chunkStock_weight_pos, ?_⟩
  intro st q t a m hw r hr
  unfold retrieve at hr
  by_cases hp : getPassages st t = []
  · rw [if_pos hp] at hr
    simp at hr
  · rw [if_neg hp] at hr
    obtain ⟨sp, hsp, hrsp⟩ := List.mem_map.mp hr
    have hsp2 : sp ∈ bm25Score (applySectionBoost q (filterByAlignment (getPassages st t) a)) q :=
      List.mem_of_mem_take hsp
    have hmid : ∀ p ∈ filterByAlignment (getPassages st t) a, 0 ≤ p.weight := by
      refine forall2_weight_nonneg ?_ (filterByAlignment_forall2 (getPassages st t) a) hw
      intro f hf
      simp only [List.mem_cons, List.not_mem_nil, or_false, List.mem_singleton] at hf
      rcases hf with rfl | rfl <;> norm_num
    have hbw : ∀ p ∈ applySectionBoost q (filterByAlignment (getPassages st t) a),
        0 ≤ p.weight := by
      refine forall2_weight_nonneg ?_
        (applySectionBoost_forall2 q (filterByAlignment (getPassages st t) a)) hmid
      intro f hf
      simp only [List.mem_singleton] at hf
      rw [hf]
      norm_num
    have hfst := bm25Score_fst_nonneg hbw sp hsp2
    rw [← hrsp]
    show 0 ≤ round3 sp.1
    calc (0 : ℝ) = round3 0 := round3_zero.symm
    _ ≤ round3 sp.1 := round3_mono hfst

theorem claim_C10_witness :
    (0 : ℝ) < idf [] "alpha" ∧
    ∀ r ∈ retrieve twoStore "alpha" (some "AA") none 5, 0 ≤ r.2 := by
  constructor
  · exact claim_C10_nonneg_scores.1 [] "alpha"
  · refine claim_C10_nonneg_scores.2.2 twoStore "alpha" (some "AA") none 5 ?_
    intro p hp
    have hps : getPassages twoStore (some "AA") = [pLow, pHigh] := rfl
    rw [hps] at hp
    rcases List.mem_cons.mp hp with rfl | hp
    · rw [show pLow.weight = 1/2 from rfl]
      norm_num
    · rcases List.mem_cons.mp hp with rfl | hp
      · rw [show pHigh.weight = 1 from rfl]
        norm_num
      · simp at hp

end Meridian
